import Mathlib

/-!
# Verification of the NotatApp clipboard rich-text capture engine

This development gives a shallow embedding, in Lean 4, of the clipboard
capture/reconciliation subsystem of `app.py` (the `ClipboardHtmlRunParser`
and `ClipboardRtfRunParser` classes and the `_decode_clipboard_bytes`,
`_read_clipboard_html_fragment`, `_extract_html_style_maps`,
`_normalize_captured_runs`, `_canonical_capture_text`, `_capture_similarity`
and `_read_clipboard_capture` methods), and proves or refutes the
specification's claims about it.

Conventions of the embedding:
* Python `str` values are embedded as `List Char` (`Str` below); byte
  buffers (`bytes`) as `List Nat` with entries < 256.
* Python floats (similarity ratios, zero-byte fractions) are embedded as
  exact rationals `ℚ`; the comparisons performed by the source
  (`> 0.55`, `< 0.25`, `>= 0.28` over fractions with denominators ≤ 1024)
  are exact in both semantics at the sizes the code can produce.
* Python dictionaries are embedded as association lists with
  insert-overwrites-existing-key semantics.
* `str.casefold()` and `str.lower()` are embedded as per-`Char.toLower`
  lowering, which agrees with CPython on the ASCII data this subsystem
  compares.
* Exceptions are embedded as `Option` results; functions the source keeps
  total (via `try`/`except` or fallbacks) are total Lean functions.
* Scanning loops (regex substitutions, tokenizers) are written with an
  explicit fuel argument initialised to the scanned list's length so that
  they are structurally recursive and kernel-reducible; every step of each
  scanner consumes at least one list element and exactly one unit of fuel,
  so the fuel-exhausted case is unreachable from the wrappers.
-/

abbrev Str := List Char

/-- A captured run: the pair `(text, bold)` used throughout `app.py`. -/
abbrev CapRun := Str × Bool

/-! ## Basic string helpers shared by the embedded functions -/

/-- Python whitespace class `\s` (ASCII part): space, `\t`, `\n`, `\r`,
`\x0b`, `\x0c`.  The source replaces the non-ASCII spaces it cares about
(`\xa0`, ` `) before any `\s` pattern is applied. -/
def isPyWs (c : Char) : Bool :=
  c = ' ' || c = '\t' || c = '\n' || c = '\x0d' || (c.toNat = 11) || (c.toNat = 12)

/-- Characters matched by `[ \t]`. -/
def isSpaceTab (c : Char) : Bool := c = ' ' || c = '\t'

/-- Python `\w` word character (ASCII part), used for `\b` boundaries. -/
def isWordChar (c : Char) : Bool :=
  c.isAlpha || c.isDigit || c = '_'

/-- `str.lstrip()` (all whitespace). -/
def pyLstrip (s : Str) : Str := s.dropWhile isPyWs

/-- `str.rstrip()` (all whitespace). -/
def pyRstrip (s : Str) : Str := (s.reverse.dropWhile isPyWs).reverse

/-- `str.strip()`. -/
def pyStrip (s : Str) : Str := pyRstrip (pyLstrip s)

/-- `str.lstrip(" ")` — strips spaces only. -/
def lstripSpaces (s : Str) : Str := s.dropWhile (· = ' ')

/-- `str.casefold()` / `str.lower()`, embedded as ASCII lowering. -/
def pyLower (s : Str) : Str := s.map Char.toLower

/-- `a.endswith(c)` for a single character. -/
def endsWithChar (s : Str) (c : Char) : Bool :=
  match s.getLast? with
  | some d => d = c
  | none => false

/-- `a.startswith(c)` for a single character. -/
def startsWithChar (s : Str) (c : Char) : Bool :=
  match s with
  | [] => false
  | d :: _ => d = c

/-- List prefix test (`str.startswith`). -/
def isPrefix (p s : Str) : Bool :=
  match p, s with
  | [], _ => true
  | _ :: _, [] => false
  | a :: p', b :: s' => a = b && isPrefix p' s'

/-- Substring containment (`needle in haystack`). -/
def containsSub (hay needle : Str) : Bool :=
  match hay with
  | [] => isPrefix needle []
  | _ :: rest => isPrefix needle hay || containsSub rest needle

/-- `str.replace(pat, repl)` scanner: all non-overlapping occurrences,
left to right, the replacement text is not rescanned.  When the non-empty
pattern matches at `c :: rest`, the scan resumes after it, i.e. at
`rest.drop (pat.length - 1)`. -/
def replaceAllGo (pat repl : Str) : Nat → Str → Str
  | _, [] => []
  | 0, s => s
  | fuel + 1, c :: rest =>
    if isPrefix pat (c :: rest) ∧ pat ≠ [] then
      repl ++ replaceAllGo pat repl fuel (rest.drop (pat.length - 1))
    else
      c :: replaceAllGo pat repl fuel rest

/-- `str.replace(pat, repl)`. -/
def replaceAll (s pat repl : Str) : Str := replaceAllGo pat repl s.length s

/-- `re.split(r"\s+", s)` scanner over a string with no leading
whitespace left to consider: whitespace-separated tokens. -/
def splitWsGo : Nat → Str → List Str
  | _, [] => []
  | 0, _ => []
  | fuel + 1, c :: rest =>
    if isPyWs c then splitWsGo fuel rest
    else
      (c :: rest.takeWhile (fun d => ¬ isPyWs d)) ::
        splitWsGo fuel (rest.dropWhile (fun d => ¬ isPyWs d))

/-- `re.split(r"\s+", s)` on an already-stripped string (how the source
uses it for class attributes): the whitespace-separated tokens. -/
def splitWsTokens (s : Str) : List Str := splitWsGo s.length s

/-! ## `_normalize_captured_text` (app.py:2927) -/

/-- One pass of `MULTISPACE_PATTERN.sub(" ", line)` where
`MULTISPACE_PATTERN = re.compile(r"[ \t]{2,}")`: every maximal run of two
or more spaces/tabs becomes a single space; lone spaces and tabs are
kept. -/
def collapseMultispaceGo : Nat → Str → Str
  | _, [] => []
  | 0, s => s
  | fuel + 1, c :: rest =>
    if isSpaceTab c then
      match rest with
      | d :: _ =>
        if isSpaceTab d then
          ' ' :: collapseMultispaceGo fuel (rest.dropWhile isSpaceTab)
        else
          c :: collapseMultispaceGo fuel rest
      | [] => [c]
    else
      c :: collapseMultispaceGo fuel rest

def collapseMultispace (s : Str) : Str := collapseMultispaceGo s.length s

/-- Split a string on `'\n'` (Python `str.split("\n")`). -/
def splitOnNl (s : Str) : List Str :=
  match s with
  | [] => [[]]
  | c :: rest =>
    if c = '\n' then [] :: splitOnNl rest
    else
      match splitOnNl rest with
      | [] => [[c]]
      | l :: ls => (c :: l) :: ls

/-- `"\n".join(lines)`. -/
def joinNl (ls : List Str) : Str :=
  match ls with
  | [] => []
  | [l] => l
  | l :: ls => l ++ '\n' :: joinNl ls

/-- `_normalize_captured_text` (app.py:2927): normalize line endings,
replace NBSP/NNBSP by spaces, collapse multi-space runs per line. -/
def normalizeCapturedText (text : Str) : Str :=
  let n := replaceAll text ['\x0d', '\n'] ['\n']
  let n := replaceAll n ['\x0d'] ['\n']
  let n := replaceAll n [Char.ofNat 0xA0] [' ']
  let n := replaceAll n [Char.ofNat 0x202F] [' ']
  joinNl ((splitOnNl n).map collapseMultispace)

/-! ## The run-cleaning substitutions of `_normalize_captured_runs`
(app.py:2767) -/

/-- Helper for `re.sub(r"\n[ \t]*-\s*\n", "\n- ", s)`: given the text
following the `-`, return the suffix after the **last** `'\n'` inside the
maximal leading whitespace run (the greedy `\s*` backtracks to leave a
final `\n`), or `none` when that run contains no newline (no match). -/
def afterLastNlInWsRun (l : Str) : Option Str :=
  match l with
  | [] => none
  | c :: rest =>
    if isPyWs c then
      match afterLastNlInWsRun rest with
      | some r => some r
      | none => if c = '\n' then some rest else none
    else none

/-- `re.sub(r"\n[ \t]*-\s*\n", "\n- ", s)`: a newline, optional
spaces/tabs, a dash, then whitespace containing at least one further
newline, is replaced by `"\n- "`. -/
def subBulletLineGo : Nat → Str → Str
  | _, [] => []
  | 0, s => s
  | fuel + 1, c :: rest =>
    if c = '\n' then
      match rest.dropWhile isSpaceTab with
      | '-' :: r2 =>
        match afterLastNlInWsRun r2 with
        | some r3 => '\n' :: '-' :: ' ' :: subBulletLineGo fuel r3
        | none => c :: subBulletLineGo fuel rest
      | _ => c :: subBulletLineGo fuel rest
    else c :: subBulletLineGo fuel rest

def subBulletLine (s : Str) : Str := subBulletLineGo s.length s

/-- `re.sub(r"\n{3,}", "\n\n", s)`: collapse maximal runs of three or
more newlines to two. -/
def collapseNewlinesGo : Nat → Str → Str
  | _, [] => []
  | 0, s => s
  | fuel + 1, c :: rest =>
    if c = '\n' then
      match rest with
      | '\n' :: '\n' :: _ =>
        '\n' :: '\n' :: collapseNewlinesGo fuel ((rest.drop 1).dropWhile (· = '\n'))
      | _ => c :: collapseNewlinesGo fuel rest
    else c :: collapseNewlinesGo fuel rest

def collapseNewlines (s : Str) : Str := collapseNewlinesGo s.length s

/-- The per-run text cleaning performed by `_normalize_captured_runs`
(app.py:2769–2775). -/
def cleanRunText (t : Str) : Str :=
  let c := normalizeCapturedText t
  let c := replaceAll c [Char.ofNat 0x2022] ['-']
  let c := subBulletLine c
  let c := collapseNewlines c
  let c := replaceAll c ['\n', '\n', '-', ' '] ['\n', '-', ' ']
  replaceAll c ['\n', '-', ' ', ' '] ['\n', '-', ' ']

/-! ## `_normalize_captured_runs` (app.py:2767) -/

/-- The merge loop of `_normalize_captured_runs` (app.py:2769–2782) once a
first cleaned, non-empty run `cur` exists: skip runs whose cleaned text
is empty, extend `cur` while the bold flag matches, emit otherwise. -/
def mergeGo (cur : CapRun) : List CapRun → List CapRun
  | [] => [cur]
  | ([], _) :: rest => mergeGo cur rest
  | (c0 :: cs, b) :: rest =>
    if b = cur.2 then mergeGo (cur.1 ++ c0 :: cs, b) rest
    else cur :: mergeGo (c0 :: cs, b) rest

/-- The merge loop of `_normalize_captured_runs` from the empty
accumulator (input runs already cleaned by `cleanRuns`). -/
def mergePhase : List CapRun → List CapRun
  | [] => []
  | ([], _) :: rest => mergePhase rest
  | (c0 :: cs, b) :: rest => mergeGo (c0 :: cs, b) rest

/-- The per-run cleaning the loop of `_normalize_captured_runs` applies
to each run's text before merging it. -/
def cleanRuns (runs : List CapRun) : List CapRun :=
  runs.map (fun r => (cleanRunText r.1, r.2))

/-- The leading-space collapse pass (app.py:2787–2791): walking the list
in order, a run that starts with a space and follows a (possibly already
rewritten) run ending in a space has its leading spaces stripped. -/
def spacePassGo (prev : CapRun) : List CapRun → List CapRun
  | [] => []
  | (t, b) :: rest =>
    let t' :=
      if endsWithChar prev.1 ' ' ∧ startsWithChar t ' ' then lstripSpaces t else t
    (t', b) :: spacePassGo (t', b) rest

def spacePass : List CapRun → List CapRun
  | [] => []
  | r :: rest => r :: spacePassGo r rest

/-- `normalized[0][0] = normalized[0][0].lstrip()` (app.py:2797). -/
def lstripHead : List CapRun → List CapRun
  | [] => []
  | (t, b) :: rest => (pyLstrip t, b) :: rest

/-- `normalized[-1][0] = normalized[-1][0].rstrip()` (app.py:2798). -/
def rstripLast : List CapRun → List CapRun
  | [] => []
  | [(t, b)] => [(pyRstrip t, b)]
  | r :: rest => r :: rstripLast rest

/-- `_normalize_captured_runs` (app.py:2767–2800). -/
def normalizeCapturedRuns (runs : List CapRun) : List CapRun :=
  let normalized := mergePhase (cleanRuns runs)
  if normalized = [] then []
  else
    let normalized := spacePass normalized
    let normalized := normalized.filter (fun r => r.1 ≠ [])
    if normalized = [] then []
    else
      let normalized := rstripLast (lstripHead normalized)
      normalized.filter (fun r => r.1 ≠ [])

/-! ## Lemmas about `_normalize_captured_runs` -/

/-- The head of the merge loop's output keeps the accumulator's bold
flag. -/
theorem mergeGo_head_bold (rest : List CapRun) (cur : CapRun) :
    ((mergeGo cur rest).head?.map Prod.snd) = some cur.2 := by
  induction rest generalizing cur with
  | nil => simp [mergeGo]
  | cons r rest ih =>
    rcases r with ⟨t, b⟩
    cases t with
    | nil => simp only [mergeGo]; exact ih cur
    | cons c0 cs =>
      simp only [mergeGo]
      by_cases hb : b = cur.2
      · rw [if_pos hb, ih]
        simp [hb]
      · rw [if_neg hb]
        simp

/-- The merge loop emits no two adjacent runs with equal bold flags. -/
theorem mergeGo_chain (rest : List CapRun) (cur : CapRun) :
    List.Chain' (fun a b : CapRun => a.2 ≠ b.2) (mergeGo cur rest) := by
  induction rest generalizing cur with
  | nil => simp [mergeGo]
  | cons r rest ih =>
    rcases r with ⟨t, b⟩
    cases t with
    | nil => simp only [mergeGo]; exact ih cur
    | cons c0 cs =>
      simp only [mergeGo]
      by_cases hb : b = cur.2
      · rw [if_pos hb]; exact ih _
      · rw [if_neg hb]
        rw [List.chain'_cons']
        refine ⟨?_, ih _⟩
        intro y hy
        have hhead := mergeGo_head_bold rest (c0 :: cs, b)
        rw [hy] at hhead
        simp at hhead
        intro hcontra
        exact hb (by rw [← hhead, hcontra])

/-- The merged sequence produced by the first phase of
`_normalize_captured_runs` alternates bold flags. -/
theorem mergePhase_chain (runs : List CapRun) :
    List.Chain' (fun a b : CapRun => a.2 ≠ b.2) (mergePhase runs) := by
  induction runs with
  | nil => simp [mergePhase]
  | cons r rest ih =>
    rcases r with ⟨t, b⟩
    cases t with
    | nil => simp only [mergePhase]; exact ih
    | cons c0 cs => simp only [mergePhase]; exact mergeGo_chain rest (c0 :: cs, b)

/-- Every run surviving `_normalize_captured_runs` has non-empty text. -/
theorem normalizeCapturedRuns_mem_ne (runs : List CapRun) (r : CapRun)
    (hr : r ∈ normalizeCapturedRuns runs) : r.1 ≠ [] := by
  unfold normalizeCapturedRuns at hr
  by_cases h1 : mergePhase (cleanRuns runs) = []
  · rw [if_pos h1] at hr
    simp at hr
  · rw [if_neg h1] at hr
    by_cases h2 : (spacePass (mergePhase (cleanRuns runs))).filter
        (fun r => r.1 ≠ []) = []
    · rw [if_pos h2] at hr
      simp at hr
    · rw [if_neg h2] at hr
      have := List.of_mem_filter hr
      simpa using this

/-- If every element's text is non-empty, the non-empty filter is the
identity. -/
theorem filter_ne_of_all (rs : List CapRun) (h : ∀ r ∈ rs, r.1 ≠ []) :
    rs.filter (fun r => r.1 ≠ []) = rs := by
  induction rs with
  | nil => rfl
  | cons r rest ih =>
    have hr := h r (by simp)
    rw [List.filter_cons, if_pos (by simpa using hr),
      ih (fun x hx => h x (by simp [hx]))]

/-- On non-empty, alternating input the merge loop emits its input
unchanged. -/
theorem mergeGo_fixed (rest : List CapRun) (cur : CapRun)
    (hne : ∀ r ∈ rest, r.1 ≠ [])
    (halt : List.Chain' (fun a b : CapRun => a.2 ≠ b.2) (cur :: rest)) :
    mergeGo cur rest = cur :: rest := by
  induction rest generalizing cur with
  | nil => rfl
  | cons r rest ih =>
    rcases r with ⟨t, b⟩
    have hb : cur.2 ≠ b := (List.chain'_cons.mp halt).1
    cases t with
    | nil => exact absurd rfl (hne ([], b) (by simp))
    | cons c0 cs =>
      simp only [mergeGo]
      rw [if_neg (fun h => hb h.symm)]
      rw [ih (c0 :: cs, b) (fun x hx => hne x (by simp [hx]))
        (List.chain'_cons.mp halt).2]

/-- On non-empty, alternating input the whole merge phase is the
identity. -/
theorem mergePhase_fixed (rs : List CapRun)
    (hne : ∀ r ∈ rs, r.1 ≠ [])
    (halt : List.Chain' (fun a b : CapRun => a.2 ≠ b.2) rs) :
    mergePhase rs = rs := by
  cases rs with
  | nil => rfl
  | cons r rest =>
    rcases r with ⟨t, b⟩
    cases t with
    | nil => exact absurd rfl (hne ([], b) (by simp))
    | cons c0 cs =>
      simp only [mergePhase]
      exact mergeGo_fixed rest (c0 :: cs, b) (fun x hx => hne x (by simp [hx])) halt

/-- When no run starting with a space follows a run ending with a space,
the space-collapse pass is the identity. -/
theorem spacePassGo_fixed (rest : List CapRun) (prev : CapRun)
    (h : List.Chain'
      (fun a b : CapRun => ¬(endsWithChar a.1 ' ' ∧ startsWithChar b.1 ' '))
      (prev :: rest)) :
    spacePassGo prev rest = rest := by
  induction rest generalizing prev with
  | nil => rfl
  | cons r rest ih =>
    rcases r with ⟨t, b⟩
    have hp := (List.chain'_cons.mp h).1
    simp only [spacePassGo]
    rw [if_neg hp]
    rw [ih (t, b) (List.chain'_cons.mp h).2]

theorem spacePass_fixed (rs : List CapRun)
    (h : List.Chain'
      (fun a b : CapRun => ¬(endsWithChar a.1 ' ' ∧ startsWithChar b.1 ' '))
      rs) :
    spacePass rs = rs := by
  cases rs with
  | nil => rfl
  | cons r rest =>
    simp only [spacePass]
    rw [spacePassGo_fixed rest r h]

/-! ## Claim C5 — normalized-run invariant -/

/-- Claim C5, counterexample: on the input
`[("a ", false), (" ", true), ("b", false)]` the normalizer returns
`[("a ", false), ("b", false)]` — the whitespace-only middle run is
emptied by the space-collapse pass and dropped, leaving two adjacent runs
with the same bold flag, so the claimed adjacent-bold-distinct invariant
fails on the output. -/
theorem normalizeCapturedRuns_adjacent_equal_bold :
    normalizeCapturedRuns
        [("a ".toList, false), (" ".toList, true), ("b".toList, false)] =
      [("a ".toList, false), ("b".toList, false)] ∧
    ¬ List.Chain' (fun a b : CapRun => a.2 ≠ b.2)
        (normalizeCapturedRuns
          [("a ".toList, false), (" ".toList, true), ("b".toList, false)]) := by
  refine ⟨by decide, ?_⟩
  intro h
  rw [show normalizeCapturedRuns
      [("a ".toList, false), (" ".toList, true), ("b".toList, false)] =
      [("a ".toList, false), ("b".toList, false)] from by decide] at h
  exact absurd ((List.chain'_cons.mp h).1) (by simp)

/-- Claim C5 (amended): every run in the output of
`_normalize_captured_runs` has non-empty text, and the intermediate
merged sequence (before the space-collapse and trimming steps) has no two
adjacent runs with the same bold flag; the final output can violate the
adjacency half when a run is emptied by those later steps. -/
theorem normalizeCapturedRuns_invariant_amended (runs : List CapRun) :
    (∀ r ∈ normalizeCapturedRuns runs, r.1 ≠ []) ∧
      List.Chain' (fun a b : CapRun => a.2 ≠ b.2) (mergePhase (cleanRuns runs)) :=
  ⟨fun r hr => normalizeCapturedRuns_mem_ne runs r hr, mergePhase_chain _⟩

/-- Claim C5, witness: the amended theorem applied to the concrete input
`[("ab", true)]`. -/
theorem normalizeCapturedRuns_invariant_amended_witness :
    (("ab".toList, true) ∈ normalizeCapturedRuns [("ab".toList, true)]) ∧
      ("ab".toList : Str) ≠ [] :=
  ⟨by decide,
    (normalizeCapturedRuns_invariant_amended [("ab".toList, true)]).1
      ("ab".toList, true) (by decide)⟩

/-! ## Claim C6 — idempotence of the run normalizer -/

/-- Claim C6, counterexample: `_normalize_captured_runs` is not
idempotent.  On `[("a ", false), (" ", true), ("b", false)]` it returns
`[("a ", false), ("b", false)]` (two adjacent non-bold runs); applying it
again merges them into `[("a b", false)]`. -/
theorem normalizeCapturedRuns_not_idempotent :
    normalizeCapturedRuns (normalizeCapturedRuns
        [("a ".toList, false), (" ".toList, true), ("b".toList, false)]) ≠
      normalizeCapturedRuns
        [("a ".toList, false), (" ".toList, true), ("b".toList, false)] := by
  decide

/-- Claim C6 (amended): `_normalize_captured_runs` is the identity (hence
idempotent) on run sequences that are fixed points of each of its phases:
every run's text is unchanged by the per-run cleaning and non-empty,
adjacent runs differ in bold flag, no run starting with a space follows a
run ending with a space, and the first/last runs carry no leading/trailing
whitespace.  (The counterexample shows the unconditional claim fails.) -/
theorem normalizeCapturedRuns_idempotent_on_fixed (rs : List CapRun)
    (hclean : ∀ r ∈ rs, cleanRunText r.1 = r.1)
    (hne : ∀ r ∈ rs, r.1 ≠ [])
    (halt : List.Chain' (fun a b : CapRun => a.2 ≠ b.2) rs)
    (hsp : List.Chain'
      (fun a b : CapRun => ¬(endsWithChar a.1 ' ' ∧ startsWithChar b.1 ' ')) rs)
    (hhead : lstripHead rs = rs)
    (hlast : rstripLast rs = rs) :
    normalizeCapturedRuns rs = rs := by
  have hcl : cleanRuns rs = rs := by
    unfold cleanRuns
    conv_rhs => rw [← List.map_id rs]
    exact List.map_congr_left (fun r hr => by rw [hclean r hr]; simp)
  by_cases h0 : rs = []
  · subst h0; rfl
  · simp only [normalizeCapturedRuns, hcl, mergePhase_fixed rs hne halt,
      spacePass_fixed rs hsp, filter_ne_of_all rs hne, if_neg h0, hhead, hlast]

/-- Claim C6, witness: the amended theorem applied to the concrete
phase-fixed sequence `[("a", false), ("b", true)]`. -/
theorem normalizeCapturedRuns_idempotent_on_fixed_witness :
    normalizeCapturedRuns [("a".toList, false), ("b".toList, true)] =
      [("a".toList, false), ("b".toList, true)] :=
  normalizeCapturedRuns_idempotent_on_fixed _ (by decide) (by decide)
    (List.chain'_cons.mpr ⟨by decide, List.chain'_singleton _⟩)
    (List.chain'_cons.mpr ⟨by decide, List.chain'_singleton _⟩)
    (by decide) (by decide)

/-! ## `ClipboardRtfRunParser` (app.py:345–477) -/

/-- The run-appending helper shared by both clipboard parsers
(`_append`, app.py:267 and app.py:353): extend the last run when its bold
flag matches, append a new run otherwise.  Defined for non-empty text. -/
def appendRunNE : List CapRun → Str → Bool → List CapRun
  | [], t, b => [(t, b)]
  | [(pt, pb)], t, b => if pb = b then [(pt ++ t, b)] else [(pt, pb), (t, b)]
  | r :: rest, t, b => r :: appendRunNE rest t b

/-- `_append(text, is_bold)`: empty text is ignored. -/
def appendRun (runs : List CapRun) (t : Str) (b : Bool) : List CapRun :=
  if t = [] then runs else appendRunNE runs t b

/-- The Windows-1252 decoding of a single byte (`bytes([x]).decode("cp1252")`):
`none` for the five undefined bytes 0x81, 0x8D, 0x8F, 0x90 and 0x9D (on
which CPython raises), the Windows-1252 glyph for 0x80–0x9F otherwise,
and the identity (Latin-1 range) for every other byte below 0x100. -/
def cp1252Char (x : Nat) : Option Char :=
  if x ≥ 0x100 then none
  else if x < 0x80 ∨ x ≥ 0xA0 then some (Char.ofNat x)
  else match x with
  | 0x80 => some (Char.ofNat 0x20AC)
  | 0x82 => some (Char.ofNat 0x201A)
  | 0x83 => some (Char.ofNat 0x192)
  | 0x84 => some (Char.ofNat 0x201E)
  | 0x85 => some (Char.ofNat 0x2026)
  | 0x86 => some (Char.ofNat 0x2020)
  | 0x87 => some (Char.ofNat 0x2021)
  | 0x88 => some (Char.ofNat 0x2C6)
  | 0x89 => some (Char.ofNat 0x2030)
  | 0x8A => some (Char.ofNat 0x160)
  | 0x8B => some (Char.ofNat 0x2039)
  | 0x8C => some (Char.ofNat 0x152)
  | 0x8E => some (Char.ofNat 0x17D)
  | 0x91 => some (Char.ofNat 0x2018)
  | 0x92 => some (Char.ofNat 0x2019)
  | 0x93 => some (Char.ofNat 0x201C)
  | 0x94 => some (Char.ofNat 0x201D)
  | 0x95 => some (Char.ofNat 0x2022)
  | 0x96 => some (Char.ofNat 0x2013)
  | 0x97 => some (Char.ofNat 0x2014)
  | 0x98 => some (Char.ofNat 0x2DC)
  | 0x99 => some (Char.ofNat 0x2122)
  | 0x9A => some (Char.ofNat 0x161)
  | 0x9B => some (Char.ofNat 0x203A)
  | 0x9C => some (Char.ofNat 0x153)
  | 0x9E => some (Char.ofNat 0x17E)
  | 0x9F => some (Char.ofNat 0x178)
  | _ => none

/-- Value of a hexadecimal digit character, as accepted by
`bytes.fromhex`. -/
def hexVal (c : Char) : Option Nat :=
  if '0' ≤ c ∧ c ≤ '9' then some (c.toNat - '0'.toNat)
  else if 'a' ≤ c ∧ c ≤ 'f' then some (c.toNat - 'a'.toNat + 10)
  else if 'A' ≤ c ∧ c ≤ 'F' then some (c.toNat - 'A'.toNat + 10)
  else none

/-- Numeric value of a non-empty digit string (`int`). -/
def digitsToNat (ds : Str) : Nat :=
  ds.foldl (fun acc c => 10 * acc + (c.toNat - '0'.toNat)) 0

/-- `ClipboardRtfRunParser` state (`__init__`, app.py:346–351). -/
structure RtfState where
  runs : List CapRun
  bold : Bool
  boldStack : List Bool
  ucSkip : Int
  pendingSkip : Int
deriving Repr, DecidableEq

def rtfInit : RtfState :=
  { runs := [], bold := false, boldStack := [], ucSkip := 1, pendingSkip := 0 }

/-- `_read_control_word` (app.py:364–386): letters, an optional sign, an
optional run of digits, and one optional delimiting space; returns the
word, the signed parameter if digits were present, and the remaining
text. -/
def readControlWord (s : Str) : Str × Option Int × Str :=
  let word := s.takeWhile Char.isAlpha
  let s1 := s.dropWhile Char.isAlpha
  let signAndRest : Int × Str :=
    match s1 with
    | '-' :: r => (-1, r)
    | '+' :: r => (1, r)
    | _ => (1, s1)
  let sign := signAndRest.1
  let s2 := signAndRest.2
  let digits := s2.takeWhile Char.isDigit
  let s3 := s2.dropWhile Char.isDigit
  let number : Option Int :=
    if digits = [] then none else some (sign * (digitsToNat digits : Int))
  let s4 := match s3 with
    | ' ' :: r => r
    | _ => s3
  (word, number, s4)

/-- One recognized control word applied to the parser state
(app.py:457–475).  `\u`'s `chr(codepoint)` is embedded via `Char.ofNat`
for valid scalar values; for a surrogate code point CPython would store a
lone surrogate, which `Char` cannot represent, so nothing is appended
(no clipboard text round-trips lone surrogates). -/
def rtfControlWord (st : RtfState) (word : Str) (number : Option Int) : RtfState :=
  if word = ['b'] then
    { st with bold := ¬ (number = some 0) }
  else if word = "par".toList ∨ word = "line".toList then
    { st with runs := appendRun st.runs ['\n'] false }
  else if word = "tab".toList then
    { st with runs := appendRun st.runs ['\t'] st.bold }
  else if word = "emdash".toList ∨ word = "endash".toList then
    { st with runs := appendRun st.runs ['-'] st.bold }
  else if word = "bullet".toList then
    { st with runs := appendRun st.runs ['-', ' '] false }
  else
    match number with
    | some k =>
      if word = ['u'] then
        let codepoint : Int := if k ≥ 0 then k else k + 65536
        let st' :=
          if 0 ≤ codepoint ∧ codepoint.toNat < 0xD800 ∨
              0xE000 ≤ codepoint.toNat ∧ codepoint.toNat < 0x110000 ∧ 0 ≤ codepoint then
            { st with runs := appendRun st.runs [Char.ofNat codepoint.toNat] st.bold }
          else st
        { st' with pendingSkip := max 0 st'.ucSkip }
      else if word = "uc".toList ∧ k ≥ 0 then
        { st with ucSkip := k }
      else st
    | none => st

/-- The character-by-character loop of `ClipboardRtfRunParser.parse`
(app.py:395–477), fuelled by the remaining text length (each iteration
consumes at least one character). -/
def rtfGo : Nat → Str → RtfState → List CapRun
  | _, [], st => st.runs
  | 0, _, st => st.runs
  | fuel + 1, ch :: rest, st =>
    if st.pendingSkip > 0 ∧ ch ≠ '\\' ∧ ch ≠ '{' ∧ ch ≠ '}' then
      rtfGo fuel rest { st with pendingSkip := st.pendingSkip - 1 }
    else if ch = '{' then
      rtfGo fuel rest { st with boldStack := st.bold :: st.boldStack }
    else if ch = '}' then
      match st.boldStack with
      | [] => rtfGo fuel rest st
      | b :: bs => rtfGo fuel rest { st with bold := b, boldStack := bs }
    else if ch ≠ '\\' then
      rtfGo fuel rest { st with runs := appendRun st.runs [ch] st.bold }
    else
      match rest with
      | [] => st.runs
      | sym :: rest2 =>
        if sym = '\\' ∨ sym = '{' ∨ sym = '}' then
          rtfGo fuel rest2 { st with runs := appendRun st.runs [sym] st.bold }
        else if sym = '\'' then
          match rest2 with
          | h1 :: h2 :: rest3 =>
            match hexVal h1, hexVal h2 with
            | some a, some b =>
              match cp1252Char (16 * a + b) with
              | some c => rtfGo fuel rest3 { st with runs := appendRun st.runs [c] st.bold }
              | none => rtfGo fuel rest3 st
            | _, _ => rtfGo fuel rest3 st
          | _ => rtfGo fuel rest2 st
        else if ¬ sym.isAlpha then
          if sym = '~' then
            rtfGo fuel rest2 { st with runs := appendRun st.runs [' '] st.bold }
          else if sym = '_' ∨ sym = '-' then
            rtfGo fuel rest2 { st with runs := appendRun st.runs ['-'] st.bold }
          else
            rtfGo fuel rest2 st
        else
          let res := readControlWord (sym :: rest2)
          rtfGo fuel res.2.2 (rtfControlWord st res.1 res.2.1)

/-- `ClipboardRtfRunParser.parse` (app.py:388–477). -/
def rtfParse (text : Str) : List CapRun :=
  rtfGo text.length text rtfInit

/-- Claim C8: parsing the legacy rich-text input `{\b hello\b0 world}`
with `ClipboardRtfRunParser.parse` yields exactly the two runs
`[("hello", true), ("world", false)]`: the bold control word with no
parameter sets bold, and with numeric parameter 0 it clears bold. -/
theorem rtfParse_bold_toggle_example :
    rtfParse "\x7b\\b hello\\b0 world\x7d".toList =
      [("hello".toList, true), ("world".toList, false)] := by decide

/-! ## `_decode_clipboard_bytes` (app.py:2555–2617)

Byte buffers are `List Nat` with entries < 256. -/

/-- `blob[0::2]` (even-indexed elements). -/
def evens {α : Type} : List α → List α
  | [] => []
  | [a] => [a]
  | a :: _ :: rest => a :: evens rest

/-- `blob[1::2]` (odd-indexed elements). -/
def odds {α : Type} : List α → List α
  | [] => []
  | _ :: rest => evens rest

/-- `re.sub(rb"\x00+$", b"", data)`: strip trailing zero bytes. -/
def stripTrailingZeros (raw : List Nat) : List Nat :=
  (raw.reverse.dropWhile (· = 0)).reverse

/-- `looks_like_utf16le` (app.py:2561–2571): over the first 1024 bytes,
false when fewer than 8 bytes were sampled, else zero-fraction of
odd-indexed bytes > 0.55 and of even-indexed bytes < 0.25 (exact
rational comparisons; the float divisions in the source agree with them
at all sample sizes ≤ 1024). -/
def looksLikeUtf16LE (blob : List Nat) : Bool :=
  let sample := blob.take 1024
  if sample.length < 8 then false
  else
    let even := evens sample
    let odd := odds sample
    if even = [] ∨ odd = [] then false
    else
      20 * odd.count 0 > 11 * odd.length ∧ 4 * even.count 0 < even.length

/-- `looks_like_utf16be` (app.py:2573–2583). -/
def looksLikeUtf16BE (blob : List Nat) : Bool :=
  let sample := blob.take 1024
  if sample.length < 8 then false
  else
    let even := evens sample
    let odd := odds sample
    if even = [] ∨ odd = [] then false
    else
      20 * even.count 0 > 11 * even.length ∧ 4 * odd.count 0 < odd.length

/-- `data.startswith(b"\xff\xfe") or data.startswith(b"\xfe\xff")`. -/
def startsWithBom (raw : List Nat) : Bool :=
  match raw with
  | 0xFF :: 0xFE :: _ => true
  | 0xFE :: 0xFF :: _ => true
  | _ => false

/-- Is `b` a UTF-8 continuation byte? -/
def isCont (b : Nat) : Bool := 0x80 ≤ b ∧ b ≤ 0xBF

/-- Strict UTF-8 decoding (`bytes.decode("utf-8")`): rejects overlong
forms, surrogates, values above U+10FFFF and truncated sequences. -/
def utf8Decode : List Nat → Option Str
  | [] => some []
  | b :: rest =>
    if b < 0x80 then (utf8Decode rest).map (Char.ofNat b :: ·)
    else if 0xC2 ≤ b ∧ b ≤ 0xDF then
      match rest with
      | b2 :: rest2 =>
        if isCont b2 then
          (utf8Decode rest2).map (Char.ofNat ((b - 0xC0) * 64 + (b2 - 0x80)) :: ·)
        else none
      | _ => none
    else if 0xE0 ≤ b ∧ b ≤ 0xEF then
      match rest with
      | b2 :: b3 :: rest3 =>
        let lo2 := if b = 0xE0 then 0xA0 else 0x80
        let hi2 := if b = 0xED then 0x9F else 0xBF
        if lo2 ≤ b2 ∧ b2 ≤ hi2 ∧ isCont b3 then
          (utf8Decode rest3).map
            (Char.ofNat ((b - 0xE0) * 4096 + (b2 - 0x80) * 64 + (b3 - 0x80)) :: ·)
        else none
      | _ => none
    else if 0xF0 ≤ b ∧ b ≤ 0xF4 then
      match rest with
      | b2 :: b3 :: b4 :: rest4 =>
        let lo2 := if b = 0xF0 then 0x90 else 0x80
        let hi2 := if b = 0xF4 then 0x8F else 0xBF
        if lo2 ≤ b2 ∧ b2 ≤ hi2 ∧ isCont b3 ∧ isCont b4 then
          (utf8Decode rest4).map
            (Char.ofNat ((b - 0xF0) * 262144 + (b2 - 0x80) * 4096 +
              (b3 - 0x80) * 64 + (b4 - 0x80)) :: ·)
        else none
      | _ => none
    else none

/-- Strict UTF-16-LE decoding (`bytes.decode("utf-16le")`): fails on an
odd trailing byte or an unpaired surrogate. -/
def utf16leDecode : List Nat → Option Str
  | [] => some []
  | [_] => none
  | lo :: hi :: rest =>
    let u := lo + 256 * hi
    if u < 0xD800 ∨ 0xE000 ≤ u then (utf16leDecode rest).map (Char.ofNat u :: ·)
    else if u < 0xDC00 then
      match rest with
      | lo2 :: hi2 :: rest2 =>
        let u2 := lo2 + 256 * hi2
        if 0xDC00 ≤ u2 ∧ u2 < 0xE000 then
          (utf16leDecode rest2).map
            (Char.ofNat (0x10000 + (u - 0xD800) * 1024 + (u2 - 0xDC00)) :: ·)
        else none
      | _ => none
    else none

/-- Strict UTF-16-BE decoding (`bytes.decode("utf-16be")`). -/
def utf16beDecode : List Nat → Option Str
  | [] => some []
  | [_] => none
  | hi :: lo :: rest =>
    let u := lo + 256 * hi
    if u < 0xD800 ∨ 0xE000 ≤ u then (utf16beDecode rest).map (Char.ofNat u :: ·)
    else if u < 0xDC00 then
      match rest with
      | hi2 :: lo2 :: rest2 =>
        let u2 := lo2 + 256 * hi2
        if 0xDC00 ≤ u2 ∧ u2 < 0xE000 then
          (utf16beDecode rest2).map
            (Char.ofNat (0x10000 + (u - 0xD800) * 1024 + (u2 - 0xDC00)) :: ·)
        else none
      | _ => none
    else none

/-- `bytes.decode("utf-16")`: honours a leading byte-order mark, else
decodes in the platform's native order — little-endian, as the host
(`ctypes.windll` clipboard access) is Windows. -/
def utf16Decode (l : List Nat) : Option Str :=
  match l with
  | 0xFF :: 0xFE :: rest => utf16leDecode rest
  | 0xFE :: 0xFF :: rest => utf16beDecode rest
  | _ => utf16leDecode l

/-- `bytes.decode("cp1252")`: per-byte table, failing on the five
undefined bytes. -/
def cp1252Decode : List Nat → Option Str
  | [] => some []
  | b :: rest =>
    match cp1252Char b with
    | some c => (cp1252Decode rest).map (c :: ·)
    | none => none

/-- `bytes.decode("latin1")`: total on bytes. -/
def latin1Decode (l : List Nat) : Option Str :=
  some (l.map Char.ofNat)

/-- `data.decode("utf-8", errors="ignore")` (the final fallback of
`_decode_clipboard_bytes`, app.py:2616; unreachable because `latin1`
appears in every codec chain): undecodable bytes are skipped. -/
def utf8IgnoreDecode : Nat → List Nat → Str
  | _, [] => []
  | 0, _ => []
  | fuel + 1, b :: rest =>
    match utf8Decode [b], rest with
    | some [c], _ => c :: utf8IgnoreDecode fuel rest
    | _, b2 :: rest2 =>
      match utf8Decode [b, b2] with
      | some cs => cs ++ utf8IgnoreDecode fuel rest2
      | none =>
        match rest2 with
        | b3 :: rest3 =>
          match utf8Decode [b, b2, b3] with
          | some cs => cs ++ utf8IgnoreDecode fuel rest3
          | none =>
            match rest3 with
            | b4 :: rest4 =>
              match utf8Decode [b, b2, b3, b4] with
              | some cs => cs ++ utf8IgnoreDecode fuel rest4
              | none => utf8IgnoreDecode fuel rest
            | [] => utf8IgnoreDecode fuel rest
        | [] => utf8IgnoreDecode fuel rest
    | _, [] => []

/-- The codec names appearing in the fallback chains of
`_decode_clipboard_bytes`. -/
inductive CodecId
  | utf16 | utf16le | utf16be | utf8 | cp1252 | latin1
deriving Repr, DecidableEq

def codecDecode : CodecId → List Nat → Option Str
  | CodecId.utf16, l => utf16Decode l
  | CodecId.utf16le, l => utf16leDecode l
  | CodecId.utf16be, l => utf16beDecode l
  | CodecId.utf8, l => utf8Decode l
  | CodecId.cp1252, l => cp1252Decode l
  | CodecId.latin1, l => latin1Decode l

/-- `decoded.replace("\x00", "")` (applied whenever a NUL is present —
equivalent to unconditional removal). -/
def removeNuls (s : Str) : Str := s.filter (fun c => c ≠ Char.ofNat 0)

/-- The codec chain and the (possibly NUL-stripped / truncated) data
buffer chosen by `_decode_clipboard_bytes` (app.py:2585–2604). -/
def decodePlan (raw : List Nat) : List CodecId × List Nat :=
  let looksLe := looksLikeUtf16LE raw
  let looksBe := looksLikeUtf16BE raw
  let bom := startsWithBom raw
  let data := if ¬(bom ∨ looksLe ∨ looksBe) then stripTrailingZeros raw else raw
  if bom then
    ([CodecId.utf16, CodecId.utf8, CodecId.cp1252, CodecId.latin1], data)
  else if looksLe then
    ([CodecId.utf16le, CodecId.utf16, CodecId.utf8, CodecId.cp1252, CodecId.latin1],
      if data.length % 2 = 1 then data.dropLast else data)
  else if looksBe then
    ([CodecId.utf16be, CodecId.utf16, CodecId.utf8, CodecId.cp1252, CodecId.latin1],
      if data.length % 2 = 1 then data.dropLast else data)
  else
    ([CodecId.utf8, CodecId.cp1252, CodecId.latin1, CodecId.utf16le], data)

/-- The `for encoding in encodings` loop (app.py:2606–2614): first codec
that decodes wins; its result has NULs removed. -/
def runChain : List CodecId → List Nat → Option Str
  | [], _ => none
  | c :: cs, data =>
    match codecDecode c data with
    | some s => some (removeNuls s)
    | none => runChain cs data

/-- `_decode_clipboard_bytes` (app.py:2555–2617). -/
def decodeClipboardBytes (raw : List Nat) : Str :=
  if raw = [] then []
  else
    match runChain (decodePlan raw).1 (decodePlan raw).2 with
    | some s => s
    | none => removeNuls (utf8IgnoreDecode (decodePlan raw).2.length (decodePlan raw).2)

/-! ## Claims C4 and C9 — decoder totality and wide-character
classification -/

theorem removeNuls_no_nul (s : Str) : Char.ofNat 0 ∉ removeNuls s := by
  intro h
  have := List.of_mem_filter h
  simp at this

/-- Any string produced by the codec chain has had its NULs removed. -/
theorem runChain_no_nul (cs : List CodecId) (data : List Nat) (s : Str)
    (h : runChain cs data = some s) : Char.ofNat 0 ∉ s := by
  induction cs with
  | nil => simp [runChain] at h
  | cons c cs ih =>
    simp only [runChain] at h
    cases hd : codecDecode c data with
    | some t =>
      rw [hd] at h
      simp at h
      rw [← h]
      exact removeNuls_no_nul t
    | none =>
      rw [hd] at h
      exact ih h

/-- A chain containing the total `latin1` codec always produces a
result. -/
theorem runChain_latin1_some (cs : List CodecId) (data : List Nat)
    (h : CodecId.latin1 ∈ cs) : runChain cs data ≠ none := by
  induction cs with
  | nil => simp at h
  | cons c cs ih =>
    simp only [runChain]
    cases hd : codecDecode c data with
    | some t => simp
    | none =>
      rcases List.mem_cons.mp h with h1 | h1
      · subst h1
        simp [codecDecode, latin1Decode] at hd
      · exact ih h1

/-- The decoder's result never contains a NUL character. -/
theorem decodeClipboardBytes_no_nul (raw : List Nat) :
    Char.ofNat 0 ∉ decodeClipboardBytes raw := by
  unfold decodeClipboardBytes
  split
  · simp
  · split
    · rename_i s hs
      exact runChain_no_nul _ _ s hs
    · exact removeNuls_no_nul _

/-- Claim C4: `_decode_clipboard_bytes` is total — for every byte buffer
(empty, odd-length or arbitrary binary) the codec chain produces a result
(the chain always contains the total `latin1` codec, so no exception
escapes), and the returned string contains no NUL characters. -/
theorem decodeClipboardBytes_total_no_nul (raw : List Nat) :
    (raw ≠ [] → runChain (decodePlan raw).1 (decodePlan raw).2 ≠ none) ∧
      Char.ofNat 0 ∉ decodeClipboardBytes raw := by
  constructor
  · intro _
    apply runChain_latin1_some
    cases hb : startsWithBom raw <;> cases hl : looksLikeUtf16LE raw <;>
      cases hbe : looksLikeUtf16BE raw <;> simp [decodePlan, hb, hl, hbe]
  · exact decodeClipboardBytes_no_nul raw

/-- Claim C4, witness: the theorem applied to the one-byte buffer
`[0x41]`. -/
theorem decodeClipboardBytes_total_no_nul_witness :
    (runChain (decodePlan [0x41]).1 (decodePlan [0x41]).2 ≠ none) ∧
      Char.ofNat 0 ∉ decodeClipboardBytes [0x41] :=
  ⟨(decodeClipboardBytes_total_no_nul [0x41]).1 (by decide),
    (decodeClipboardBytes_total_no_nul [0x41]).2⟩

/-- A six-byte buffer whose odd-indexed bytes are all zero and whose
even-indexed bytes are all `0x80`. -/
def c9ShortBuffer : List Nat := [0x80, 0, 0x80, 0, 0x80, 0]

/-- Claim C9, counterexample: this buffer satisfies the claim's fraction
conditions (odd-indexed zero fraction 1 > 0.6, even-indexed 0 < 0.25 over
the sampled prefix), yet the sampler requires at least 8 bytes, so the
buffer is NOT classified as UTF-16-LE: it decodes through `cp1252` to
`"€€€"` instead of the UTF-16-LE reading `"\x80\x80\x80"`. -/
theorem decode_short_buffer_not_classified :
    5 * (odds (c9ShortBuffer.take 1024)).count 0 >
        3 * (odds (c9ShortBuffer.take 1024)).length ∧
      4 * (evens (c9ShortBuffer.take 1024)).count 0 <
        (evens (c9ShortBuffer.take 1024)).length ∧
      looksLikeUtf16LE c9ShortBuffer = false ∧
      decodeClipboardBytes c9ShortBuffer =
        [Char.ofNat 0x20AC, Char.ofNat 0x20AC, Char.ofNat 0x20AC] ∧
      utf16leDecode c9ShortBuffer =
        some [Char.ofNat 0x80, Char.ofNat 0x80, Char.ofNat 0x80] ∧
      decodeClipboardBytes c9ShortBuffer ≠
        [Char.ofNat 0x80, Char.ofNat 0x80, Char.ofNat 0x80] := by
  decide

/-- Claim C9 (amended): for every buffer of at least 8 bytes that does
not start with a byte-order mark, if over the sampled prefix of up to
1024 bytes the zero fraction at odd indices exceeds 0.6 and at even
indices is below 0.25, then the buffer is classified UTF-16-LE, the codec
chain starts with `utf-16le`, the decoded data is the buffer truncated by
one trailing byte when its length is odd, and the result carries no
residual NUL. -/
theorem decode_utf16le_classified (raw : List Nat)
    (h8 : 8 ≤ raw.length)
    (hbom : startsWithBom raw = false)
    (hodd : 5 * (odds (raw.take 1024)).count 0 > 3 * (odds (raw.take 1024)).length)
    (heven : 4 * (evens (raw.take 1024)).count 0 < (evens (raw.take 1024)).length) :
    looksLikeUtf16LE raw = true ∧
      (decodePlan raw).1 =
        [CodecId.utf16le, CodecId.utf16, CodecId.utf8, CodecId.cp1252,
          CodecId.latin1] ∧
      (decodePlan raw).2 = (if raw.length % 2 = 1 then raw.dropLast else raw) ∧
      Char.ofNat 0 ∉ decodeClipboardBytes raw := by
  have hcnt_odd := List.count_le_length 0 (odds (raw.take 1024))
  have hcnt_even := List.count_le_length 0 (evens (raw.take 1024))
  have hoddlen : 0 < (odds (raw.take 1024)).length := by omega
  have hevenlen : 0 < (evens (raw.take 1024)).length := by omega
  have hsl : (raw.take 1024).length = min 1024 raw.length := List.length_take 1024 raw
  have hle : looksLikeUtf16LE raw = true := by
    unfold looksLikeUtf16LE
    rw [if_neg (by omega)]
    rw [if_neg (by
      rintro (h | h)
      · rw [h] at hevenlen; simp at hevenlen
      · rw [h] at hoddlen; simp at hoddlen)]
    simp only [decide_eq_true_eq]
    exact ⟨by omega, heven⟩
  refine ⟨hle, ?_, ?_, decodeClipboardBytes_no_nul raw⟩
  · simp [decodePlan, hbom, hle]
  · simp [decodePlan, hbom, hle]

/-- Claim C9, witness: the amended theorem applied to the 8-byte
UTF-16-LE encoding of `"Hi!?"`. -/
theorem decode_utf16le_classified_witness :
    looksLikeUtf16LE [0x48, 0, 0x69, 0, 0x21, 0, 0x3F, 0] = true ∧
      (decodePlan [0x48, 0, 0x69, 0, 0x21, 0, 0x3F, 0]).1 =
        [CodecId.utf16le, CodecId.utf16, CodecId.utf8, CodecId.cp1252,
          CodecId.latin1] ∧
      (decodePlan [0x48, 0, 0x69, 0, 0x21, 0, 0x3F, 0]).2 =
        (if ([0x48, 0, 0x69, 0, 0x21, 0, 0x3F, 0] : List Nat).length % 2 = 1 then
          ([0x48, 0, 0x69, 0, 0x21, 0, 0x3F, 0] : List Nat).dropLast
        else [0x48, 0, 0x69, 0, 0x21, 0, 0x3F, 0]) ∧
      Char.ofNat 0 ∉ decodeClipboardBytes [0x48, 0, 0x69, 0, 0x21, 0, 0x3F, 0] :=
  decode_utf16le_classified _ (by decide) (by decide) (by decide) (by decide)

/-! ## Byte-level fragment extraction of `_read_clipboard_html_fragment`
(app.py:2650–2686) -/

/-- The byte string of an ASCII literal. -/
def asciiBytes (s : String) : List Nat := s.toList.map Char.toNat

/-- Prefix test on byte lists. -/
def bytesIsPrefix (p s : List Nat) : Bool :=
  match p, s with
  | [], _ => true
  | _ :: _, [] => false
  | a :: p', b :: s' => a = b && bytesIsPrefix p' s'

def isDigitByte (b : Nat) : Bool := 0x30 ≤ b ∧ b ≤ 0x39

def byteDigitsToNat (ds : List Nat) : Nat :=
  ds.foldl (fun acc b => 10 * acc + (b - 0x30)) 0

/-- `re.search(label + rb"(\d+)", data)`: at the first position where the
label occurs followed by at least one ASCII digit, the value of the
maximal digit run; `none` when no such position exists. -/
def searchLabelNumGo (label : List Nat) : Nat → List Nat → Option Nat
  | _, [] => none
  | 0, _ => none
  | fuel + 1, b :: rest =>
    if bytesIsPrefix label (b :: rest) then
      match (b :: rest).drop label.length with
      | d :: ds =>
        if isDigitByte d then
          some (byteDigitsToNat ((d :: ds).takeWhile isDigitByte))
        else searchLabelNumGo label fuel rest
      | [] => searchLabelNumGo label fuel rest
    else searchLabelNumGo label fuel rest

def searchLabelNum (label data : List Nat) : Option Nat :=
  searchLabelNumGo label data.length data

/-- `data.find(marker)` for a non-empty marker: index of the first
occurrence, `none` when absent. -/
def findSubGo (marker : List Nat) (idx : Nat) : List Nat → Option Nat
  | [] => none
  | b :: rest =>
    if bytesIsPrefix marker (b :: rest) then some idx
    else findSubGo marker (idx + 1) rest

def findSub (data marker : List Nat) : Option Nat := findSubGo marker 0 data

def startHTMLLabel : List Nat := asciiBytes "StartHTML:"
def endHTMLLabel : List Nat := asciiBytes "EndHTML:"
def startFragmentLabel : List Nat := asciiBytes "StartFragment:"
def endFragmentLabel : List Nat := asciiBytes "EndFragment:"
def startFragmentMarker : List Nat := asciiBytes "<!--StartFragment-->"
def endFragmentMarker : List Nat := asciiBytes "<!--EndFragment-->"

/-- The `html_bytes` selection (app.py:2661–2667): the
`StartHTML`/`EndHTML` slice when both offsets are present and in range,
else the whole NUL-stripped payload. -/
def fragmentHtmlBytes (compact : List Nat) : List Nat :=
  match searchLabelNum startHTMLLabel compact, searchLabelNum endHTMLLabel compact with
  | some hs, some he =>
    if hs < he ∧ he ≤ compact.length then (compact.drop hs).take (he - hs)
    else compact
  | _, _ => compact

/-- The comment-marker extraction of the `else` branch (app.py:2679–2686):
the bytes strictly between the first `<!--StartFragment-->` and the first
`<!--EndFragment-->` when both markers occur in that order. -/
def markerFragment (htmlBytes : List Nat) : Option (List Nat) :=
  match findSub htmlBytes startFragmentMarker, findSub htmlBytes endFragmentMarker with
  | some st, some en =>
    if en > st then
      some ((htmlBytes.drop (st + startFragmentMarker.length)).take
        (en - (st + startFragmentMarker.length)))
    else none
  | _, _ => none

/-- The `fragment_bytes` selection (app.py:2669–2686): when both
`StartFragment`/`EndFragment` offsets are present, the slice if they are
in range and otherwise `html_bytes`; when either offset is absent, the
comment-marker extraction with `html_bytes` as fallback. -/
def fragmentBytesOf (compact : List Nat) : List Nat :=
  match searchLabelNum startFragmentLabel compact,
      searchLabelNum endFragmentLabel compact with
  | some s, some e =>
    if s < e ∧ e ≤ compact.length then (compact.drop s).take (e - s)
    else fragmentHtmlBytes compact
  | _, _ =>
    match markerFragment (fragmentHtmlBytes compact) with
    | some f => f
    | none => fragmentHtmlBytes compact

/-- The byte-level phase of `_read_clipboard_html_fragment`:
`(html_bytes, fragment_bytes)` for a raw payload. -/
def readFragmentBytes (raw : List Nat) : List Nat × List Nat :=
  (fragmentHtmlBytes (stripTrailingZeros raw),
    fragmentBytesOf (stripTrailingZeros raw))

/-- When the `StartHTML`/`EndHTML` headers are absent, `html_bytes` is
the whole NUL-stripped payload. -/
theorem fragmentHtmlBytes_default (compact : List Nat)
    (h : searchLabelNum startHTMLLabel compact = none ∨
      searchLabelNum endHTMLLabel compact = none) :
    fragmentHtmlBytes compact = compact := by
  unfold fragmentHtmlBytes
  rcases h with h | h
  · rw [h]
  · rw [h]
    cases searchLabelNum startHTMLLabel compact <;> rfl

/-! ## Claim C3 — invalid fragment offsets -/

/-- A payload whose `StartFragment`/`EndFragment` offsets are present but
out of range, and which also contains literal boundary comment markers. -/
def c3Payload : List Nat :=
  asciiBytes
    "StartFragment:999 EndFragment:5 <!--StartFragment-->X<!--EndFragment-->"

/-- Claim C3, counterexample: on `c3Payload` the offset headers are
present (999 and 5) and invalid (`¬(999 < 5)`), and the comment-boundary
markers are present with content `"X"` — yet the code does NOT fall back
to the markers: the extracted fragment is the whole payload, not `"X"`. -/
theorem fragment_invalid_offsets_ignore_markers :
    searchLabelNum startFragmentLabel c3Payload = some 999 ∧
      searchLabelNum endFragmentLabel c3Payload = some 5 ∧
      ¬ (999 < 5 ∧ 5 ≤ c3Payload.length) ∧
      markerFragment (fragmentHtmlBytes c3Payload) = some (asciiBytes "X") ∧
      (readFragmentBytes c3Payload).2 = c3Payload ∧
      (readFragmentBytes c3Payload).2 ≠ asciiBytes "X" := by
  decide

/-- Claim C3 (amended): for every payload whose `StartFragment` /
`EndFragment` offset headers are present but invalid, extraction does not
raise and the fragment falls back to the whole-markup bytes
(`html_bytes`) — the `StartHTML`/`EndHTML` slice when those are valid,
else the whole NUL-stripped payload; the literal comment-boundary markers
are consulted only when an offset header is absent. -/
theorem fragment_invalid_offsets_fallback (raw : List Nat) (s e : Nat)
    (hs : searchLabelNum startFragmentLabel (stripTrailingZeros raw) = some s)
    (he : searchLabelNum endFragmentLabel (stripTrailingZeros raw) = some e)
    (hinv : ¬ (s < e ∧ e ≤ (stripTrailingZeros raw).length)) :
    (readFragmentBytes raw).2 = (readFragmentBytes raw).1 ∧
      ((searchLabelNum startHTMLLabel (stripTrailingZeros raw) = none ∨
          searchLabelNum endHTMLLabel (stripTrailingZeros raw) = none) →
        (readFragmentBytes raw).1 = stripTrailingZeros raw) := by
  constructor
  · show fragmentBytesOf (stripTrailingZeros raw) =
      fragmentHtmlBytes (stripTrailingZeros raw)
    unfold fragmentBytesOf
    rw [hs, he]
    simp only [if_neg hinv]
  · intro h
    exact fragmentHtmlBytes_default _ h

/-- Claim C3, witness: the amended theorem applied to `c3Payload`. -/
theorem fragment_invalid_offsets_fallback_witness :
    (readFragmentBytes c3Payload).2 = (readFragmentBytes c3Payload).1 ∧
      ((searchLabelNum startHTMLLabel (stripTrailingZeros c3Payload) = none ∨
          searchLabelNum endHTMLLabel (stripTrailingZeros c3Payload) = none) →
        (readFragmentBytes c3Payload).1 = stripTrailingZeros c3Payload) :=
  fragment_invalid_offsets_fallback c3Payload 999 5 (by decide) (by decide)
    (by decide)

/-! ## CSS style predicate and style maps
(`ClipboardHtmlRunParser._resolve_css_value` / `_style_implies_bold`,
app.py:159–243, and `_extract_html_style_maps`, app.py:2712–2742) -/

/-- `[A-Za-z0-9_-]`, the CSS name character class used by the source's
patterns. -/
def isCssNameChar (c : Char) : Bool :=
  c.isAlpha || c.isDigit || c = '_' || c = '-'

/-- Suffix test. -/
def isSuffix (suf s : Str) : Bool := isPrefix suf.reverse s.reverse

/-- Association-list insert with Python-dict semantics: overwrite an
existing key in place, append otherwise. -/
def insertAssoc {β : Type} (m : List (Str × β)) (k : Str) (v : β) : List (Str × β) :=
  match m with
  | [] => [(k, v)]
  | (k', v') :: rest => if k' = k then (k, v) :: rest else (k', v') :: insertAssoc rest k v

/-- `dict.get(k)` / `dict.get(k, default)`. -/
def lookupAssoc {β : Type} (m : List (Str × β)) (k : Str) : Option β :=
  match m with
  | [] => none
  | (k', v) :: rest => if k' = k then some v else lookupAssoc rest k

/-- `re.sub(r"\s*!important\s*$", "", text, flags=IGNORECASE).strip()`. -/
def stripImportantAndStrip (text : Str) : Str :=
  let r := pyRstrip text
  if isSuffix "!important".toList (pyLower r) then
    pyStrip (r.take (r.length - 10))
  else text

/-- `re.match(r"var\(\s*(--[A-Za-z0-9_-]+)\s*(?:,\s*([^)]+))?\)", text)`:
the variable name and the (stripped) fallback (`""` when absent). -/
def parseVarRef (text : Str) : Option (Str × Str) :=
  if isPrefix "var(".toList text then
    match (text.drop 4).dropWhile isPyWs with
    | '-' :: '-' :: t2 =>
      let nameRest := t2.takeWhile isCssNameChar
      if nameRest = [] then none
      else
        let name := '-' :: '-' :: nameRest
        match (t2.dropWhile isCssNameChar).dropWhile isPyWs with
        | ')' :: _ => some (name, [])
        | ',' :: t4 =>
          let t5 := t4.dropWhile isPyWs
          let fb := t5.takeWhile (· ≠ ')')
          match t5.dropWhile (· ≠ ')') with
          | ')' :: _ => if fb = [] then none else some (name, fb)
          | _ => none
        | _ => none
    | _ => none
  else none

/-- `_resolve_css_value` (app.py:159–182), fuelled by `7 - depth` (the
source stops resolving once `depth > 6`, where it returns the stripped
value unchanged). -/
def resolveCssValueGo (cssVars : List (Str × Str)) : Nat → Str → Str
  | 0, value => pyStrip value
  | fuel + 1, value =>
    let text := pyStrip value
    if text = [] then []
    else
      let text := stripImportantAndStrip text
      match parseVarRef text with
      | some nf =>
        let fromVars :=
          match lookupAssoc cssVars (pyLower nf.1) with
          | some v => v
          | none => []
        let resolved := if fromVars = [] then pyStrip nf.2 else fromVars
        resolveCssValueGo cssVars fuel resolved
      | none => text

def resolveCssValue (value : Str) (cssVars : List (Str × Str)) : Str :=
  resolveCssValueGo cssVars 7 value

/-- `re.search(prop + r"\s*:\s*([^;]+)", s)` for a literal property name:
the raw group up to the next `;` (which the callers strip), found at the
first occurrence of the property name followed by optional whitespace, a
colon, and at least one non-`;` character. -/
def searchPropValueGo (prop : Str) : Nat → Str → Option Str
  | _, [] => none
  | 0, _ => none
  | fuel + 1, c :: rest =>
    if isPrefix prop (c :: rest) then
      match ((c :: rest).drop prop.length).dropWhile isPyWs with
      | ':' :: t2 =>
        let g := t2.takeWhile (· ≠ ';')
        if g = [] then searchPropValueGo prop fuel rest else some g
      | _ => searchPropValueGo prop fuel rest
    else searchPropValueGo prop fuel rest

def searchPropValue (prop s : Str) : Option Str := searchPropValueGo prop s.length s

/-- `\b` boundary after a word occurrence. -/
def boundaryAfter (w s : Str) : Bool :=
  match s.drop w.length with
  | [] => true
  | d :: _ => ¬ isWordChar d

/-- `re.search(r"\b(w1|w2|…)\b", s)` for literal word alternatives:
does any of the words occur with word boundaries on both sides? -/
def searchWordsGo (words : List Str) (prevIsWord : Bool) : Nat → Str → Bool
  | _, [] => false
  | 0, _ => false
  | fuel + 1, c :: rest =>
    (¬ prevIsWord &&
      words.any (fun w => isPrefix w (c :: rest) && boundaryAfter w (c :: rest))) ||
      searchWordsGo words (isWordChar c) fuel rest

def searchWords (words : List Str) (s : Str) : Bool :=
  searchWordsGo words false s.length s

/-- `re.match(r"([0-9]{3,4})", value)` followed by `int(...) >= 500`:
the first three or four (greedy) leading digits form a number ≥ 500. -/
def leadingWeightGe500 (value : Str) : Bool :=
  let ds := (value.takeWhile Char.isDigit).take 4
  if ds.length ≥ 3 then digitsToNat ds ≥ 500 else false

/-- `re.search(r"['\"]?wght['\"]?\s*([0-9]{2,4})", s)`: the numeric value
of the first `wght` axis occurrence (2–4 digits, greedy). -/
def searchWghtGo : Nat → Str → Option Nat
  | _, [] => none
  | 0, _ => none
  | fuel + 1, c :: rest =>
    let t := if c = '\'' ∨ c = '"' then rest else c :: rest
    if isPrefix "wght".toList t then
      let t2 := t.drop 4
      let t3 := match t2 with
        | q :: t2' => if q = '\'' ∨ q = '"' then t2' else t2
        | [] => t2
      let t4 := t3.dropWhile isPyWs
      let ds := (t4.takeWhile Char.isDigit).take 4
      if ds.length ≥ 2 then some (digitsToNat ds)
      else searchWghtGo fuel rest
    else searchWghtGo fuel rest

def searchWght (s : Str) : Option Nat := searchWghtGo s.length s

def fontBoldWords : List Str :=
  ["bold".toList, "bolder".toList, "semibold".toList, "demibold".toList,
    "black".toList]

def fontWeightHundreds : List Str :=
  ["500".toList, "600".toList, "700".toList, "800".toList, "900".toList]

def fontWeightKeywords : List Str :=
  ["bold".toList, "bolder".toList, "semibold".toList, "demibold".toList,
    "medium".toList, "black".toList]

def familyBoldSubstrings : List Str :=
  ["bold".toList, "black".toList, "semibold".toList, "demibold".toList]

/-- `ClipboardHtmlRunParser._style_implies_bold` (app.py:184–243): the
`font` shorthand, `font-weight`, `font-variation-settings` and
`font-family` checks, in the source's order, over the casefolded style
text, resolving `var()` references against the variable table. -/
def styleImpliesBold (styleText : Str) (cssVars : List (Str × Str)) : Bool :=
  if styleText = [] then false
  else
    let lowered := pyLower styleText
    (match searchPropValue "font".toList lowered with
     | some g =>
       let fv := resolveCssValue g cssVars
       searchWords fontBoldWords fv || searchWords fontWeightHundreds fv
     | none => false) ||
    (match searchPropValue "font-weight".toList lowered with
     | some g =>
       let v := pyStrip (resolveCssValue g cssVars)
       fontWeightKeywords.contains v || leadingWeightGe500 v
     | none => false) ||
    (match searchPropValue "font-variation-settings".toList lowered with
     | some g =>
       match searchWght (resolveCssValue g cssVars) with
       | some n => n ≥ 500
       | none => false
     | none => false) ||
    (match searchPropValue "font-family".toList lowered with
     | some g =>
       let fv := resolveCssValue g cssVars
       familyBoldSubstrings.any (fun w => containsSub fv w)
     | none => false)

/-- Case-insensitive search for a (lower-case) pattern: index of the
first occurrence. -/
def findSubCIGo (patLower : Str) (idx : Nat) : Str → Option Nat
  | [] => if patLower = [] then some idx else none
  | c :: rest =>
    if isPrefix patLower (pyLower ((c :: rest).take patLower.length)) then some idx
    else findSubCIGo patLower (idx + 1) rest

def findSubCI (s patLower : Str) : Option Nat := findSubCIGo patLower 0 s

/-- `re.findall(r"<style[^>]*>(.*?)</style>", html, IGNORECASE | DOTALL)`:
the contents of each style element, scanning left to right. -/
def findStyleBlocksGo : Nat → Str → List Str
  | _, [] => []
  | 0, _ => []
  | fuel + 1, c :: rest =>
    if pyLower ((c :: rest).take 6) = "<style".toList then
      match ((c :: rest).drop 6).dropWhile (· ≠ '>') with
      | '>' :: content =>
        match findSubCI content "</style>".toList with
        | some i => content.take i :: findStyleBlocksGo fuel (content.drop (i + 8))
        | none => findStyleBlocksGo fuel rest
      | _ => findStyleBlocksGo fuel rest
    else findStyleBlocksGo fuel rest

def findStyleBlocks (html : Str) : List Str := findStyleBlocksGo html.length html

/-- `re.findall(r"([^{}]+)\{([^{}]+)\}", block, DOTALL)`: the
selector/declaration pairs, scanning left to right; a match needs a
non-empty brace-free selector, `{`, a non-empty brace-free body and `}`. -/
def findPairsGo : Nat → Str → List (Str × Str)
  | _, [] => []
  | 0, _ => []
  | fuel + 1, c :: rest =>
    if c = '{' ∨ c = '}' then findPairsGo fuel rest
    else
      let sel := (c :: rest).takeWhile (fun d => d ≠ '{' ∧ d ≠ '}')
      match (c :: rest).drop sel.length with
      | '{' :: afterBrace =>
        let body := afterBrace.takeWhile (fun d => d ≠ '{' ∧ d ≠ '}')
        match afterBrace.drop body.length with
        | '}' :: tail2 =>
          if body = [] then findPairsGo fuel rest
          else (sel, body) :: findPairsGo fuel tail2
        | _ => findPairsGo fuel rest
      | _ => findPairsGo fuel rest

def findPairs (block : Str) : List (Str × Str) := findPairsGo block.length block

/-- `re.findall(r"(--[A-Za-z0-9_-]+)\s*:\s*([^;]+)", declarations)`:
variable declarations, names with the leading dashes, raw values up to
`;`. -/
def findVarDeclsGo : Nat → Str → List (Str × Str)
  | _, [] => []
  | 0, _ => []
  | fuel + 1, c :: rest =>
    if isPrefix "--".toList (c :: rest) then
      let t2 := (c :: rest).drop 2
      let nm := t2.takeWhile isCssNameChar
      if nm = [] then findVarDeclsGo fuel rest
      else
        match (t2.dropWhile isCssNameChar).dropWhile isPyWs with
        | ':' :: t3 =>
          let g := t3.takeWhile (· ≠ ';')
          if g = [] then findVarDeclsGo fuel rest
          else ('-' :: '-' :: nm, g) :: findVarDeclsGo fuel (t3.drop g.length)
        | _ => findVarDeclsGo fuel rest
    else findVarDeclsGo fuel rest

def findVarDecls (declarations : Str) : List (Str × Str) :=
  findVarDeclsGo declarations.length declarations

/-- `re.findall(r"\.([A-Za-z0-9_-]+)", selector)`: class-selector
tokens. -/
def findClassNamesGo : Nat → Str → List Str
  | _, [] => []
  | 0, _ => []
  | fuel + 1, c :: rest =>
    if c = '.' then
      let nm := rest.takeWhile isCssNameChar
      if nm = [] then findClassNamesGo fuel rest
      else nm :: findClassNamesGo fuel (rest.drop nm.length)
    else findClassNamesGo fuel rest

def findClassNames (selector : Str) : List Str :=
  findClassNamesGo selector.length selector

/-- `_extract_html_style_maps` (app.py:2712–2742): first collect all
variable declarations from every style block (keyed case-insensitively,
values stripped), then mark every class-selector token of every
bold-implying declaration block. -/
def extractHtmlStyleMaps (htmlText : Str) : List (Str × Bool) × List (Str × Str) :=
  if htmlText = [] then ([], [])
  else
    let blocks := findStyleBlocks htmlText
    let cssVars := blocks.foldl (fun acc block =>
      (findPairs block).foldl (fun acc2 pr =>
        (findVarDecls pr.2).foldl
          (fun m kv => insertAssoc m (pyLower kv.1) (pyStrip kv.2)) acc2) acc) []
    let classBold := blocks.foldl (fun acc block =>
      (findPairs block).foldl (fun acc2 pr =>
        if styleImpliesBold pr.2 cssVars then
          (findClassNames pr.1).foldl (fun m cn => insertAssoc m cn true) acc2
        else acc2) acc) []
    (classBold, cssVars)

/-- Claim C7: building the style maps from the style-block declaration
`--w: 700;` yields a variable table mapping `--w` to `700`, and with that
table the style predicate classifies `font-weight: var(--w)` as
bold-implying, resolving the `var()` reference through the table. -/
theorem styleImpliesBold_var_example :
    lookupAssoc
        (extractHtmlStyleMaps "<style>p \x7b --w: 700; \x7d</style>".toList).2
        "--w".toList = some "700".toList ∧
      styleImpliesBold "font-weight: var(--w)".toList
        (extractHtmlStyleMaps "<style>p \x7b --w: 700; \x7d</style>".toList).2 = true := by
  decide

/-! ## `ClipboardHtmlRunParser` state machine (app.py:126–342)

The Python class is driven by `html.parser.HTMLParser`, which tokenizes
the markup and delivers start-tag / end-tag / data callbacks; the state
machine below embeds those callbacks over an explicit event stream. -/

inductive HtmlEvent
  | tagOpen (name : Str) (attrs : List (Str × Option Str))
  | tagClose (name : Str)
  | dataText (t : Str)
deriving Repr, DecidableEq

def BLOCK_TAGS : List Str :=
  ["p".toList, "div".toList, "section".toList, "article".toList,
    "header".toList, "footer".toList, "aside".toList, "blockquote".toList,
    "pre".toList, "ul".toList, "ol".toList, "table".toList, "tr".toList,
    "h1".toList, "h2".toList, "h3".toList, "h4".toList, "h5".toList,
    "h6".toList]

/-- `{k.lower(): (v or "") for k, v in attrs}` (app.py:246). -/
def attrMapBuild (attrs : List (Str × Option Str)) : List (Str × Str) :=
  attrs.foldl
    (fun m kv =>
      insertAssoc m (pyLower kv.1) (match kv.2 with | some v => v | none => []))
    []

/-- `ClipboardHtmlRunParser._attrs_imply_bold` (app.py:245–265). -/
def attrsImplyBold (classBoldMap : List (Str × Bool)) (cssVars : List (Str × Str))
    (attrs : List (Str × Option Str)) : Bool :=
  let am := attrMapBuild attrs
  let style := match lookupAssoc am "style".toList with | some v => v | none => []
  if styleImpliesBold style cssVars then true
  else
    let face := pyLower (match lookupAssoc am "face".toList with | some v => v | none => [])
    if face ≠ [] ∧ familyBoldSubstrings.any (fun w => containsSub face w) then true
    else
      let cls := match lookupAssoc am "class".toList with | some v => v | none => []
      if cls ≠ [] then
        (splitWsTokens (pyStrip cls)).any
          (fun cn => cn ≠ [] ∧ lookupAssoc classBoldMap cn = some true)
      else false

/-- Parser state (`__init__`, app.py:149–157; the tag stack's top is at
the head — the source appends at the end of a Python list and scans from
the end).  The depth counters are Python ints, embedded as `Int`. -/
structure HtmlPState where
  runs : List CapRun
  boldDepth : Int
  skipDepth : Int
  tagStack : List (Str × Bool)
  liDepth : Int
deriving Repr, DecidableEq

def htmlInit : HtmlPState :=
  { runs := [], boldDepth := 0, skipDepth := 0, tagStack := [], liDepth := 0 }

/-- `_append_newline` (app.py:276–281). -/
def htmlAppendNewline (runs : List CapRun) : List CapRun :=
  match runs.getLast? with
  | none => runs
  | some r => if endsWithChar r.1 '\n' then runs else appendRun runs ['\n'] false

/-- `handle_starttag` (app.py:283–310). -/
def handleStart (cbm : List (Str × Bool)) (cssVars : List (Str × Str))
    (st : HtmlPState) (tag : Str) (attrs : List (Str × Option Str)) : HtmlPState :=
  let lowered := pyLower tag
  if lowered = "script".toList ∨ lowered = "style".toList then
    { st with skipDepth := st.skipDepth + 1 }
  else if st.skipDepth > 0 then st
  else if lowered = "br".toList then
    { st with runs := appendRun st.runs ['\n'] false }
  else
    let st :=
      if lowered = "li".toList then
        { st with runs := appendRun (htmlAppendNewline st.runs) ['-', ' '] false,
                  liDepth := st.liDepth + 1 }
      else st
    let isHeading : Bool :=
      match lowered with
      | [h, d] => decide (h = 'h') && d.isDigit
      | _ => false
    let pushesBold : Bool :=
      decide (lowered = ['b']) || decide (lowered = "strong".toList) ||
        decide (lowered = "th".toList) || isHeading ||
        attrsImplyBold cbm cssVars attrs
    { st with
        boldDepth := if pushesBold then st.boldDepth + 1 else st.boldDepth,
        tagStack := (lowered, pushesBold) :: st.tagStack }

/-- The backwards stack scan of `handle_endtag` (app.py:322–329): remove
the entry nearest the top whose tag matches; report whether one was found
and whether it had pushed bold. -/
def popMatch (stack : List (Str × Bool)) (t : Str) :
    List (Str × Bool) × Bool × Bool :=
  match stack with
  | [] => ([], false, false)
  | (nm, pb) :: rest =>
    if nm = t then (rest, true, pb)
    else
      let r := popMatch rest t
      ((nm, pb) :: r.1, r.2.1, r.2.2)

/-- The tag-stack pop and bold-depth adjustment of `handle_endtag`
(app.py:322–329). -/
def handleEndPop (st : HtmlPState) (lowered : Str) : HtmlPState :=
  { st with
      tagStack := (popMatch st.tagStack lowered).1,
      boldDepth :=
        if (popMatch st.tagStack lowered).2.1 ∧ (popMatch st.tagStack lowered).2.2 ∧
            st.boldDepth > 0 then
          st.boldDepth - 1
        else st.boldDepth }

/-- The line-break bookkeeping of `handle_endtag` (app.py:331–337). -/
def handleEndBreaks (st : HtmlPState) (lowered : Str) : HtmlPState :=
  if lowered = "li".toList then
    { st with
        liDepth := if st.liDepth > 0 then st.liDepth - 1 else st.liDepth,
        runs := htmlAppendNewline st.runs }
  else if BLOCK_TAGS.contains lowered then
    if st.liDepth = 0 then { st with runs := htmlAppendNewline st.runs } else st
  else st

/-- `handle_endtag` (app.py:312–337). -/
def handleEnd (st : HtmlPState) (tag : Str) : HtmlPState :=
  let lowered := pyLower tag
  if lowered = "script".toList ∨ lowered = "style".toList then
    if st.skipDepth > 0 then { st with skipDepth := st.skipDepth - 1 } else st
  else if st.skipDepth > 0 then st
  else handleEndBreaks (handleEndPop st lowered) lowered

/-- `handle_data` (app.py:339–342). -/
def handleData (st : HtmlPState) (d : Str) : HtmlPState :=
  if st.skipDepth > 0 then st
  else { st with runs := appendRun st.runs d (st.boldDepth > 0) }

def htmlStep (cbm : List (Str × Bool)) (cssVars : List (Str × Str))
    (st : HtmlPState) : HtmlEvent → HtmlPState
  | HtmlEvent.tagOpen name attrs => handleStart cbm cssVars st name attrs
  | HtmlEvent.tagClose name => handleEnd st name
  | HtmlEvent.dataText d => handleData st d

def runHtmlEvents (cbm : List (Str × Bool)) (cssVars : List (Str × Str))
    (events : List HtmlEvent) : HtmlPState :=
  events.foldl (htmlStep cbm cssVars) htmlInit

/-! ## Claim C10 — depth-counter invariants of the markup parser -/

/-- One parser step preserves non-negativity of both depth counters. -/
theorem htmlStep_depths_nonneg (cbm : List (Str × Bool))
    (cssVars : List (Str × Str)) (st : HtmlPState) (e : HtmlEvent)
    (hb : 0 ≤ st.boldDepth) (hs : 0 ≤ st.skipDepth) :
    0 ≤ (htmlStep cbm cssVars st e).boldDepth ∧
      0 ≤ (htmlStep cbm cssVars st e).skipDepth := by
  cases e with
  | tagOpen name attrs =>
    simp only [htmlStep, handleStart]
    split_ifs <;> simp_all <;> omega
  | tagClose name =>
    simp only [htmlStep, handleEnd, handleEndPop, handleEndBreaks]
    split_ifs <;> simp_all <;> omega
  | dataText d =>
    simp only [htmlStep, handleData]
    split_ifs <;> simp_all

/-- Both depth counters stay non-negative along any event stream. -/
theorem runHtmlEvents_depths_nonneg (cbm : List (Str × Bool))
    (cssVars : List (Str × Str)) (events : List HtmlEvent) :
    0 ≤ (runHtmlEvents cbm cssVars events).boldDepth ∧
      0 ≤ (runHtmlEvents cbm cssVars events).skipDepth := by
  suffices h : ∀ (st : HtmlPState), 0 ≤ st.boldDepth → 0 ≤ st.skipDepth →
      0 ≤ (events.foldl (htmlStep cbm cssVars) st).boldDepth ∧
        0 ≤ (events.foldl (htmlStep cbm cssVars) st).skipDepth by
    exact h htmlInit (by simp [htmlInit]) (by simp [htmlInit])
  induction events with
  | nil => intro st hb hs; exact ⟨hb, hs⟩
  | cons e rest ih =>
    intro st hb hs
    have := htmlStep_depths_nonneg cbm cssVars st e hb hs
    exact ih _ this.1 this.2

/-- A close tag whose name is nowhere on the stack pops nothing. -/
theorem popMatch_not_found (stack : List (Str × Bool)) (t : Str)
    (h : t ∉ stack.map Prod.fst) : popMatch stack t = (stack, false, false) := by
  induction stack with
  | nil => rfl
  | cons e rest ih =>
    rcases e with ⟨nm, pb⟩
    simp only [popMatch]
    have hne : nm ≠ t := by
      intro hc; exact h (by simp [hc])
    have h2 : t ∉ rest.map Prod.fst := by
      intro hc
      apply h
      simp only [List.map_cons, List.mem_cons]
      exact Or.inr hc
    rw [if_neg hne, ih h2]

/-- A close tag with no matching stack entry leaves the bold depth
unchanged. -/
theorem handleEnd_unmatched_bold (st : HtmlPState) (tag : Str)
    (h : pyLower tag ∉ st.tagStack.map Prod.fst) :
    (handleEnd st tag).boldDepth = st.boldDepth := by
  have hbr : ∀ (s : HtmlPState) (l : Str),
      (handleEndBreaks s l).boldDepth = s.boldDepth := by
    intro s l
    unfold handleEndBreaks
    split_ifs <;> simp
  simp only [handleEnd]
  by_cases h1 : pyLower tag = "script".toList ∨ pyLower tag = "style".toList
  · rw [if_pos h1]
    by_cases h2 : st.skipDepth > 0
    · rw [if_pos h2]
    · rw [if_neg h2]
  · rw [if_neg h1]
    by_cases h2 : st.skipDepth > 0
    · rw [if_pos h2]
    · rw [if_neg h2, hbr]
      unfold handleEndPop
      rw [popMatch_not_found st.tagStack (pyLower tag) h]
      simp

/-- Claim C10: over any event stream (so in particular any unbalanced
markup), the parser's bold-depth and skip-depth counters never become
negative; a close tag with no matching entry on the tag stack leaves the
bold depth unchanged; and every text node outside skipped content is
emitted with bold state true exactly when the bold depth is positive at
that point. -/
theorem htmlParser_invariants :
    (∀ (cbm : List (Str × Bool)) (cssVars : List (Str × Str))
        (events : List HtmlEvent),
      0 ≤ (runHtmlEvents cbm cssVars events).boldDepth ∧
        0 ≤ (runHtmlEvents cbm cssVars events).skipDepth) ∧
      (∀ (st : HtmlPState) (tag : Str),
        pyLower tag ∉ st.tagStack.map Prod.fst →
          (handleEnd st tag).boldDepth = st.boldDepth) ∧
      (∀ (st : HtmlPState) (d : Str), st.skipDepth = 0 →
        (handleData st d).runs = appendRun st.runs d (decide (st.boldDepth > 0))) := by
  refine ⟨runHtmlEvents_depths_nonneg, handleEnd_unmatched_bold, ?_⟩
  intro st d hsz
  unfold handleData
  rw [if_neg (by omega)]

/-- Claim C10, witness: the invariants applied to a concrete unmatched
close tag, a concrete state and a concrete data node. -/
theorem htmlParser_invariants_witness :
    (0 ≤ (runHtmlEvents [] [] [HtmlEvent.tagClose "b".toList]).boldDepth ∧
      0 ≤ (runHtmlEvents [] [] [HtmlEvent.tagClose "b".toList]).skipDepth) ∧
      (handleEnd htmlInit "i".toList).boldDepth = htmlInit.boldDepth ∧
      (handleData htmlInit "x".toList).runs =
        appendRun htmlInit.runs "x".toList (decide (htmlInit.boldDepth > 0)) :=
  ⟨htmlParser_invariants.1 [] [] [HtmlEvent.tagClose "b".toList],
    htmlParser_invariants.2.1 htmlInit "i".toList (by decide),
    htmlParser_invariants.2.2 htmlInit "x".toList (by decide)⟩

/-! ## HTML tokenization (a model of `html.parser.HTMLParser` with
`convert_charrefs=True`, restricted to the constructs clipboard payloads
use: tags with attributes, end tags, self-closing tags — delivered as a
start followed by an end event, as the default `handle_startendtag`
does — comments, declarations, and character references). -/

/-- Case-sensitive substring search: index of the first occurrence. -/
def findSubSGo (pat : Str) (idx : Nat) : Str → Option Nat
  | [] => if pat = [] then some idx else none
  | c :: rest =>
    if isPrefix pat (c :: rest) then some idx
    else findSubSGo pat (idx + 1) rest

def findSubS (s pat : Str) : Option Nat := findSubSGo pat 0 s

/-- The named character references this model resolves (the stdlib
resolves the full HTML5 table; clipboard payloads use these). -/
def namedCharrefs : List (Str × Char) :=
  [("amp;".toList, '&'), ("lt;".toList, '<'), ("gt;".toList, '>'),
    ("quot;".toList, '"'), ("apos;".toList, '\''),
    ("nbsp;".toList, Char.ofNat 0xA0)]

/-- Resolve `&name;`, `&#NN;` and `&#xNN;` references in a data run. -/
def unescapeCharrefsGo : Nat → Str → Str
  | _, [] => []
  | 0, s => s
  | fuel + 1, c :: rest =>
    if c = '&' then
      match namedCharrefs.find? (fun nc => isPrefix nc.1 rest) with
      | some nc => nc.2 :: unescapeCharrefsGo fuel (rest.drop nc.1.length)
      | none =>
        match rest with
        | '#' :: 'x' :: r2 =>
          let ds := r2.takeWhile (fun d => (hexVal d).isSome)
          match r2.drop ds.length with
          | ';' :: r3 =>
            if ds ≠ [] ∧ ds.foldl (fun a d => 16 * a + ((hexVal d).getD 0)) 0 < 0x110000 then
              Char.ofNat (ds.foldl (fun a d => 16 * a + ((hexVal d).getD 0)) 0) ::
                unescapeCharrefsGo fuel r3
            else c :: unescapeCharrefsGo fuel rest
          | _ => c :: unescapeCharrefsGo fuel rest
        | '#' :: r2 =>
          let ds := r2.takeWhile Char.isDigit
          match r2.drop ds.length with
          | ';' :: r3 =>
            if ds ≠ [] ∧ digitsToNat ds < 0x110000 then
              Char.ofNat (digitsToNat ds) :: unescapeCharrefsGo fuel r3
            else c :: unescapeCharrefsGo fuel rest
          | _ => c :: unescapeCharrefsGo fuel rest
        | _ => c :: unescapeCharrefsGo fuel rest
    else c :: unescapeCharrefsGo fuel rest

def unescapeCharrefs (s : Str) : Str := unescapeCharrefsGo s.length s

/-- Tag-name characters (`html.parser`: a letter followed by anything but
whitespace, `/`, `>`). -/
def isTagNameChar (c : Char) : Bool :=
  ¬ isPyWs c && c ≠ '/' && c ≠ '>'

/-- Attribute-name characters: anything but whitespace, `=`, `/`, `>`. -/
def isAttrNameChar (c : Char) : Bool :=
  ¬ isPyWs c && c ≠ '=' && c ≠ '/' && c ≠ '>'

/-- Attribute parsing inside a start tag; returns the attribute list, the
self-closing flag, and the remaining input after `>`. -/
def parseAttrs : Nat → Str → List (Str × Option Str) × Bool × Str
  | _, [] => ([], false, [])
  | 0, s => ([], false, s)
  | fuel + 1, s =>
    let t := s.dropWhile isPyWs
    match t with
    | [] => ([], false, [])
    | '>' :: r => ([], false, r)
    | '/' :: '>' :: r => ([], true, r)
    | '/' :: r => parseAttrs fuel r
    | _ =>
      let nm := t.takeWhile isAttrNameChar
      if nm = [] then parseAttrs fuel (t.drop 1)
      else
        let t2 := (t.drop nm.length).dropWhile isPyWs
        match t2 with
        | '=' :: t3 =>
          let t4 := t3.dropWhile isPyWs
          match t4 with
          | '"' :: t5 =>
            let v := t5.takeWhile (· ≠ '"')
            let r := parseAttrs fuel ((t5.drop v.length).drop 1)
            ((pyLower nm, some (unescapeCharrefs v)) :: r.1, r.2.1, r.2.2)
          | '\'' :: t5 =>
            let v := t5.takeWhile (· ≠ '\'')
            let r := parseAttrs fuel ((t5.drop v.length).drop 1)
            ((pyLower nm, some (unescapeCharrefs v)) :: r.1, r.2.1, r.2.2)
          | _ =>
            let v := t4.takeWhile (fun d => ¬ isPyWs d ∧ d ≠ '>')
            let r := parseAttrs fuel (t4.drop v.length)
            ((pyLower nm, some (unescapeCharrefs v)) :: r.1, r.2.1, r.2.2)
        | _ =>
          let r := parseAttrs fuel t2
          ((pyLower nm, none) :: r.1, r.2.1, r.2.2)

/-- The tokenizer: markup text to parser events. -/
def tokenizeGo : Nat → Str → List HtmlEvent
  | _, [] => []
  | 0, _ => []
  | fuel + 1, c :: rest =>
    if c = '<' then
      if isPrefix "!--".toList rest then
        match findSubS (rest.drop 3) "-->".toList with
        | some i => tokenizeGo fuel ((rest.drop 3).drop (i + 3))
        | none => []
      else
        match rest with
        | '/' :: r2 =>
          let nm := r2.takeWhile isTagNameChar
          match (r2.drop nm.length).dropWhile (· ≠ '>') with
          | '>' :: r3 =>
            if nm = [] then tokenizeGo fuel r3
            else HtmlEvent.tagClose (pyLower nm) :: tokenizeGo fuel r3
          | _ => []
        | d :: _ =>
          if d.isAlpha then
            let nm := rest.takeWhile isTagNameChar
            let pa := parseAttrs (rest.drop nm.length).length (rest.drop nm.length)
            HtmlEvent.tagOpen (pyLower nm) pa.1 ::
              (if pa.2.1 then
                HtmlEvent.tagClose (pyLower nm) :: tokenizeGo fuel pa.2.2
              else tokenizeGo fuel pa.2.2)
          else if d = '!' ∨ d = '?' then
            match rest.dropWhile (· ≠ '>') with
            | '>' :: r3 => tokenizeGo fuel r3
            | _ => []
          else
            HtmlEvent.dataText ['<'] :: tokenizeGo fuel rest
        | [] => HtmlEvent.dataText ['<'] :: []
    else
      let d := (c :: rest).takeWhile (· ≠ '<')
      HtmlEvent.dataText (unescapeCharrefs d) ::
        tokenizeGo fuel ((c :: rest).dropWhile (· ≠ '<'))

def tokenize (s : Str) : List HtmlEvent := tokenizeGo s.length s

/-- `parser.feed(candidate); parser.close(); parser.runs` for one markup
candidate (app.py:2844–2850). -/
def parseHtmlRuns (cbm : List (Str × Bool)) (cssVars : List (Str × Str))
    (candidate : Str) : List CapRun :=
  (runHtmlEvents cbm cssVars (tokenize candidate)).runs

/-! ## `difflib.SequenceMatcher(None, a, b).ratio()` — used by
`_capture_similarity` (app.py:2811–2814) -/

def assocGetNat (m : List (Nat × Nat)) (k : Nat) : Nat :=
  match m with
  | [] => 0
  | (k', v) :: rest => if k' = k then v else assocGetNat rest k

def insertAssocNat (m : List (Nat × Nat)) (k v : Nat) : List (Nat × Nat) :=
  match m with
  | [] => [(k, v)]
  | (k', v') :: rest =>
    if k' = k then (k, v) :: rest else (k', v') :: insertAssocNat rest k v

/-- `b2j`: for each element of `b`, its indices in ascending order. -/
def b2jInsert (m : List (Char × List Nat)) (c : Char) (i : Nat) :
    List (Char × List Nat) :=
  match m with
  | [] => [(c, [i])]
  | (c', is) :: rest =>
    if c' = c then (c, is ++ [i]) :: rest else (c', is) :: b2jInsert rest c i

def b2jBuildGo (b : Str) (i : Nat) (m : List (Char × List Nat)) :
    List (Char × List Nat) :=
  match b with
  | [] => m
  | c :: rest => b2jBuildGo rest (i + 1) (b2jInsert m c i)

/-- The `autojunk` purge: for `len(b) >= 200`, elements occurring more
than `len(b) // 100 + 1` times are dropped from `b2j` (they stay absent
from the junk set, so the extension loops still cross them). -/
def b2jBuild (b : Str) : List (Char × List Nat) :=
  let m := b2jBuildGo b 0 []
  if b.length ≥ 200 then
    m.filter (fun kv => ¬ (kv.2.length > b.length / 100 + 1))
  else m

def b2jGet (m : List (Char × List Nat)) (c : Char) : List Nat :=
  match m with
  | [] => []
  | (c', is) :: rest => if c' = c then is else b2jGet rest c

/-- The inner `for j in b2j.get(a[i], [])` loop of `find_longest_match`:
builds `newj2len` and updates the running best; the index list is
ascending, so `j >= bhi` stops the loop. -/
def flmInner (j2len : List (Nat × Nat)) (i blo bhi : Nat) :
    List Nat → List (Nat × Nat) → Nat × Nat × Nat → List (Nat × Nat) × (Nat × Nat × Nat)
  | [], newj2len, best => (newj2len, best)
  | j :: js, newj2len, best =>
    if j < blo then flmInner j2len i blo bhi js newj2len best
    else if j ≥ bhi then (newj2len, best)
    else
      let k := (if j = 0 then 0 else assocGetNat j2len (j - 1)) + 1
      let newj2len := insertAssocNat newj2len j k
      let best := if k > best.2.2 then (i + 1 - k, j + 1 - k, k) else best
      flmInner j2len i blo bhi js newj2len best

/-- The outer `for i in range(alo, ahi)` loop, counted down by
`ahi - alo`. -/
def flmOuter (a : Str) (b2j : List (Char × List Nat)) (blo bhi : Nat) :
    Nat → Nat → List (Nat × Nat) → Nat × Nat × Nat → Nat × Nat × Nat
  | 0, _, _, best => best
  | n + 1, i, j2len, best =>
    let r := flmInner j2len i blo bhi (b2jGet b2j (a.getD i ' ')) [] best
    flmOuter a b2j blo bhi n (i + 1) r.1 r.2

/-- The left extension loop (`while besti > alo and bestj > blo and
a[besti-1] == b[bestj-1]`; the junk set is empty). -/
def flmExtendLeft (a b : Str) (alo blo : Nat) :
    Nat → Nat × Nat × Nat → Nat × Nat × Nat
  | 0, best => best
  | fuel + 1, (bi, bj, bs) =>
    if bi > alo ∧ bj > blo ∧ a.getD (bi - 1) ' ' = b.getD (bj - 1) ' ' then
      flmExtendLeft a b alo blo fuel (bi - 1, bj - 1, bs + 1)
    else (bi, bj, bs)

/-- The right extension loop. -/
def flmExtendRight (a b : Str) (ahi bhi : Nat) :
    Nat → Nat × Nat × Nat → Nat × Nat × Nat
  | 0, best => best
  | fuel + 1, (bi, bj, bs) =>
    if bi + bs < ahi ∧ bj + bs < bhi ∧ a.getD (bi + bs) ' ' = b.getD (bj + bs) ' ' then
      flmExtendRight a b ahi bhi fuel (bi, bj, bs + 1)
    else (bi, bj, bs)

/-- `SequenceMatcher.find_longest_match` over `[alo, ahi) × [blo, bhi)`
(with no junk, the two junk-extension loops are no-ops). -/
def findLongestMatch (a b : Str) (b2j : List (Char × List Nat))
    (alo ahi blo bhi : Nat) : Nat × Nat × Nat :=
  let best := flmOuter a b2j blo bhi (ahi - alo) alo [] (alo, blo, 0)
  let best := flmExtendLeft a b alo blo best.1 best
  flmExtendRight a b ahi bhi ahi best

/-- The total size of all matching blocks (`get_matching_blocks` without
the sort and adjacency merge, which preserve the size sum).  The fuel
bounds the recursion depth: every recursive call works on a strictly
smaller pair of intervals, so `(ahi - alo) + (bhi - blo) + 1` suffices. -/
def matchesTotal (a b : Str) (b2j : List (Char × List Nat)) :
    Nat → Nat → Nat → Nat → Nat → Nat
  | 0, _, _, _, _ => 0
  | fuel + 1, alo, ahi, blo, bhi =>
    let r := findLongestMatch a b b2j alo ahi blo bhi
    if r.2.2 = 0 then 0
    else
      r.2.2 +
        (if alo < r.1 ∧ blo < r.2.1 then
          matchesTotal a b b2j fuel alo r.1 blo r.2.1
        else 0) +
        (if r.1 + r.2.2 < ahi ∧ r.2.1 + r.2.2 < bhi then
          matchesTotal a b b2j fuel (r.1 + r.2.2) ahi (r.2.1 + r.2.2) bhi
        else 0)

/-- An exact non-negative-denominator fraction standing for the float
similarity values the source manipulates (kernel-reducible, unlike `ℚ`
division; at the sizes this code can produce, exact fraction comparison
agrees with CPython's float comparison). -/
structure Sim where
  num : Int
  den : Nat
  den_pos : 0 < den

/-- The rational value of a similarity fraction (used in proofs only). -/
def simVal (s : Sim) : ℚ := (s.num : ℚ) / (s.den : ℚ)

/-- `SequenceMatcher(None, a, b).ratio()`:
`2.0 * matches / (len(a) + len(b))`, or 1 on two empty sequences. -/
def sequenceMatcherSim (a b : Str) : Sim :=
  if h : a.length + b.length = 0 then ⟨1, 1, by omega⟩
  else
    ⟨2 * (matchesTotal a b (b2jBuild b) (a.length + b.length + 1)
        0 a.length 0 b.length : Int),
      a.length + b.length, by omega⟩

/-- `_capture_similarity` (app.py:2811–2814). -/
def captureSimilarity (a b : Str) : Sim :=
  if a = [] ∨ b = [] then ⟨0, 1, by omega⟩ else sequenceMatcherSim a b

/-- `sim < sim'` on exact fractions (cross-multiplication; denominators
are positive). -/
def SimLt (x y : Sim) : Prop := x.num * (y.den : Int) < y.num * (x.den : Int)

/-- Value equality of fractions. -/
def SimEq (x y : Sim) : Prop := x.num * (y.den : Int) = y.num * (x.den : Int)

instance (x y : Sim) : Decidable (SimLt x y) := by unfold SimLt; infer_instance
instance (x y : Sim) : Decidable (SimEq x y) := by unfold SimEq; infer_instance

theorem simLt_iff (x y : Sim) : SimLt x y ↔ simVal x < simVal y := by
  unfold SimLt simVal
  rw [div_lt_div_iff₀ (by exact_mod_cast x.den_pos) (by exact_mod_cast y.den_pos)]
  constructor <;> intro h <;> exact_mod_cast h

theorem simEq_iff (x y : Sim) : SimEq x y ↔ simVal x = simVal y := by
  unfold SimEq simVal
  rw [div_eq_div_iff (by exact_mod_cast x.den_pos.ne') (by exact_mod_cast y.den_pos.ne')]
  constructor <;> intro h <;> exact_mod_cast h

/-! ## `_canonical_capture_text` (app.py:2802–2809) -/

/-- `re.sub(r"\n[ \t]*-\s*", "\n", s)`: newline, spaces/tabs, dash and
any following whitespace collapse to a newline. -/
def subBulletNoNlGo : Nat → Str → Str
  | _, [] => []
  | 0, s => s
  | fuel + 1, c :: rest =>
    if c = '\n' then
      match rest.dropWhile isSpaceTab with
      | '-' :: r2 => '\n' :: subBulletNoNlGo fuel (r2.dropWhile isPyWs)
      | _ => c :: subBulletNoNlGo fuel rest
    else c :: subBulletNoNlGo fuel rest

def subBulletNoNl (s : Str) : Str := subBulletNoNlGo s.length s

/-- `re.sub(r"\s+", " ", s)`: collapse whitespace runs to one space. -/
def collapseWsRunsGo : Nat → Str → Str
  | _, [] => []
  | 0, s => s
  | fuel + 1, c :: rest =>
    if isPyWs c then ' ' :: collapseWsRunsGo fuel (rest.dropWhile isPyWs)
    else c :: collapseWsRunsGo fuel rest

def collapseWsRuns (s : Str) : Str := collapseWsRunsGo s.length s

/-- `_canonical_capture_text` (app.py:2802–2809). -/
def canonicalCaptureText (text : Str) : Str :=
  if text = [] then []
  else
    let c := normalizeCapturedText text
    let c := replaceAll c [Char.ofNat 0x2022] ['-']
    let c := subBulletNoNl c
    let c := collapseWsRuns c
    pyLower (pyStrip c)

/-! ## `_extract_html_fragment_from_text` (app.py:2619–2648) -/

/-- `<!--` `\s*` word `\s*` `-->` at the head of the input
(case-insensitive); returns the remainder after the marker. -/
def matchFlexMarker (wordLower : Str) (s : Str) : Option Str :=
  if pyLower (s.take 4) = "<!--".toList then
    let t := (s.drop 4).dropWhile isPyWs
    if pyLower (t.take wordLower.length) = wordLower then
      let t2 := (t.drop wordLower.length).dropWhile isPyWs
      if isPrefix "-->".toList t2 then some (t2.drop 3) else none
    else none
  else none

/-- The non-greedy `(.*?)` capture up to the first end marker. -/
def captureToEndMarker : Nat → Str → Option Str
  | _, [] => none
  | 0, _ => none
  | fuel + 1, c :: rest =>
    match matchFlexMarker "endfragment".toList (c :: rest) with
    | some _ => some []
    | none =>
      match captureToEndMarker fuel rest with
      | some cap => some (c :: cap)
      | none => none

/-- `re.search(r"<!--\s*StartFragment\s*-->(.*?)<!--\s*EndFragment\s*-->",
html, IGNORECASE | DOTALL)`. -/
def markerPairSearchGo : Nat → Str → Option Str
  | _, [] => none
  | 0, _ => none
  | fuel + 1, c :: rest =>
    match matchFlexMarker "startfragment".toList (c :: rest) with
    | some afterStart =>
      match captureToEndMarker afterStart.length afterStart with
      | some cap => some cap
      | none => markerPairSearchGo fuel rest
    | none => markerPairSearchGo fuel rest

def markerPairSearch (s : Str) : Option Str := markerPairSearchGo s.length s

/-- A case-insensitive label followed by at least one digit, at the head
of the input: the numeric value and the remainder. -/
def matchLabelNumCI (labelLower : Str) (s : Str) : Option (Nat × Str) :=
  if pyLower (s.take labelLower.length) = labelLower then
    let t := s.drop labelLower.length
    let ds := t.takeWhile Char.isDigit
    if ds = [] then none else some (digitsToNat ds, t.drop ds.length)
  else none

def searchLabelNumCIGo (labelLower : Str) : Nat → Str → Option (Nat × Str)
  | _, [] => none
  | 0, _ => none
  | fuel + 1, c :: rest =>
    match matchLabelNumCI labelLower (c :: rest) with
    | some r => some r
    | none => searchLabelNumCIGo labelLower fuel rest

/-- `re.search(r"StartFragment:(\d+).*?EndFragment:(\d+)", html,
IGNORECASE | DOTALL)`. -/
def offsetPairSearchGo : Nat → Str → Option (Nat × Nat)
  | _, [] => none
  | 0, _ => none
  | fuel + 1, c :: rest =>
    match matchLabelNumCI "startfragment:".toList (c :: rest) with
    | some sr =>
      match searchLabelNumCIGo "endfragment:".toList sr.2.length sr.2 with
      | some er => some (sr.1, er.1)
      | none => offsetPairSearchGo fuel rest
    | none => offsetPairSearchGo fuel rest

def offsetPairSearch (s : Str) : Option (Nat × Nat) := offsetPairSearchGo s.length s

/-- `re.search(r"<body[^>]*>(.*?)</body>", html, IGNORECASE | DOTALL)`. -/
def bodyMatchGo : Nat → Str → Option Str
  | _, [] => none
  | 0, _ => none
  | fuel + 1, c :: rest =>
    if pyLower ((c :: rest).take 5) = "<body".toList then
      match ((c :: rest).drop 5).dropWhile (· ≠ '>') with
      | '>' :: content =>
        match findSubCI content "</body>".toList with
        | some i => some (content.take i)
        | none => bodyMatchGo fuel rest
      | _ => bodyMatchGo fuel rest
    else bodyMatchGo fuel rest

def bodyMatch (s : Str) : Option Str := bodyMatchGo s.length s

/-- `_extract_html_fragment_from_text` (app.py:2619–2648): the explicit
comment-marker pair, else in-range numeric offsets, else the body
element, else the whole text. -/
def extractHtmlFragmentFromText (htmlText : Str) : Str :=
  if htmlText = [] then []
  else
    match markerPairSearch htmlText with
    | some frag => frag
    | none =>
      let viaOffsets : Option Str :=
        match offsetPairSearch htmlText with
        | some se =>
          if se.1 < se.2 ∧ se.2 ≤ htmlText.length then
            some ((htmlText.drop se.1).take (se.2 - se.1))
          else none
        | none => none
      match viaOffsets with
      | some frag => frag
      | none =>
        match bodyMatch htmlText with
        | some frag => frag
        | none => htmlText

/-! ## Capture reconciliation (`_read_clipboard_capture`,
app.py:2816–2925) -/

/-- The candidate score tuple `(has_bold, similarity, -length_delta,
len(candidate_text))` (app.py:2865–2870). -/
structure Score where
  hasBold : Int
  sim : Sim
  negDelta : Int
  textLen : Int

/-- Python tuple `<` on scores: lexicographic, with the float component
compared by value. -/
def ScoreLt (x y : Score) : Prop :=
  x.hasBold < y.hasBold ∨ (x.hasBold = y.hasBold ∧
    (SimLt x.sim y.sim ∨ (SimEq x.sim y.sim ∧
      (x.negDelta < y.negDelta ∨ (x.negDelta = y.negDelta ∧
        x.textLen < y.textLen)))))

instance (x y : Score) : Decidable (ScoreLt x y) := by
  unfold ScoreLt; infer_instance

/-- The score's value in the lexicographic order on
`Int ×ₗ (ℚ ×ₗ (Int ×ₗ Int))` (proof device). -/
def scoreVal (x : Score) : Int ×ₗ (ℚ ×ₗ (Int ×ₗ Int)) :=
  toLex (x.hasBold, toLex (simVal x.sim, toLex (x.negDelta, x.textLen)))

theorem scoreLt_iff (x y : Score) : ScoreLt x y ↔ scoreVal x < scoreVal y := by
  unfold ScoreLt scoreVal
  rw [Prod.Lex.lt_iff, Prod.Lex.lt_iff, Prod.Lex.lt_iff]
  simp only [simLt_iff, simEq_iff]

theorem scoreLt_irrefl (x : Score) : ¬ ScoreLt x x := by
  rw [scoreLt_iff]; exact lt_irrefl _

theorem scoreLt_trans {x y z : Score} (h1 : ScoreLt x y) (h2 : ScoreLt y z) :
    ScoreLt x z := by
  rw [scoreLt_iff] at h1 h2 ⊢
  exact lt_trans h1 h2

/-- `"".join(text for text, _ in runs)`. -/
def joinRuns (runs : List CapRun) : Str := (runs.map Prod.fst).flatten

/-- `sum(len(text) for text, is_bold in runs if is_bold)`. -/
def boldCharsOf (runs : List CapRun) : Nat :=
  ((runs.filter (fun r => r.2)).map (fun r => r.1.length)).sum

/-- The per-candidate evaluation of the scoring loop
(app.py:2843–2870): `none` for candidates whose normalized runs (or
joined text) are empty. -/
structure CandEval where
  score : Score
  sim : Sim
  runs : List CapRun
  text : Str

def candidateEval (cbm : List (Str × Bool)) (cssVars : List (Str × Str))
    (canonPlain : Str) (candidate : Str) : Option CandEval :=
  let runs := normalizeCapturedRuns (parseHtmlRuns cbm cssVars candidate)
  if runs = [] then none
  else
    let candidateText := joinRuns runs
    if candidateText = [] then none
    else
      let candidateCanonical := canonicalCaptureText candidateText
      let sim := captureSimilarity candidateCanonical canonPlain
      let lengthDelta : Int :=
        |(candidateCanonical.length : Int) - (canonPlain.length : Int)|
      some
        { score :=
            { hasBold := if boldCharsOf runs > 0 then 1 else 0, sim := sim,
              negDelta := -lengthDelta, textLen := (candidateText.length : Int) },
          sim := sim, runs := runs, text := candidateText }

/-- `best_score = (-1, -1.0, -10**9, -1)` (app.py:2840). -/
def scoreInit : Score :=
  { hasBold := -1, sim := ⟨-1, 1, by omega⟩, negDelta := -(10 ^ 9), textLen := -1 }

/-- The `for candidate in fragment_candidates` loop (app.py:2843–2874):
accumulator `(best_score, best_similarity, best_runs)`. -/
def scoreLoop (cbm : List (Str × Bool)) (cssVars : List (Str × Str))
    (canonPlain : Str) :
    List Str → Score × Sim × Option (List CapRun) →
      Score × Sim × Option (List CapRun)
  | [], acc => acc
  | cand :: cands, acc =>
    match candidateEval cbm cssVars canonPlain cand with
    | none => scoreLoop cbm cssVars canonPlain cands acc
    | some ev =>
      if ScoreLt acc.1 ev.score then
        scoreLoop cbm cssVars canonPlain cands (ev.score, ev.sim, some ev.runs)
      else scoreLoop cbm cssVars canonPlain cands acc

/-- The `signature` entry of a capture dict: `(source_tag, tuple(runs))`
for markup/legacy captures, `("text", text)` for the plain fallback. -/
inductive CapSignature
  | runsSig (tag : Str) (runs : List CapRun)
  | textSig (t : Str)
deriving Repr, DecidableEq

/-- A capture dict (app.py:2877–2882, 2889–2894, 2919–2925). -/
structure Capture where
  text : Str
  runs : List CapRun
  signature : CapSignature
  source : Str
  detail : Option Str
deriving Repr, DecidableEq

/-- The dict returned by `_read_clipboard_html_fragment`
(app.py:2692–2697). -/
structure HtmlPayload where
  fragment : Str
  htmlText : Str
  classBoldMap : List (Str × Bool)
  cssVars : List (Str × Str)
deriving Repr, DecidableEq

/-- One clipboard state, as seen through the OS-boundary readers: the
cleaned plain text (`""` models absence — the source only uses its
truthiness and value), the decoded markup payload, the decoded legacy
rich-text payload, and the available format names. -/
structure ClipboardState where
  plainText : Str
  htmlPayload : Option HtmlPayload
  rtfText : Option Str
  formatNames : List Str
deriving Repr, DecidableEq

/-- `fragment_candidates` assembly (app.py:2827–2837). -/
def fragmentCandidates (p : HtmlPayload) : List Str :=
  let cands := if p.fragment ≠ [] then [p.fragment] else []
  let alt := extractHtmlFragmentFromText p.htmlText
  let cands := if alt ≠ [] ∧ ¬ cands.contains alt then cands ++ [alt] else cands
  if p.htmlText ≠ [] ∧ ¬ cands.contains p.htmlText then cands ++ [p.htmlText]
  else cands

/-- The accumulator before the loop:
`best_score, best_similarity, best_runs = (-1, -1.0, -10**9, -1), 0.0, None`
(app.py:2839–2841). -/
def scoreStart : Score × Sim × Option (List CapRun) :=
  (scoreInit, ⟨0, 1, Nat.one_pos⟩, none)

/-- The markup-capture half of `_read_clipboard_capture`
(app.py:2820–2882). -/
def htmlCaptureOfPayload (p : HtmlPayload) (canonPlain : Str) : Option Capture :=
  let res := scoreLoop p.classBoldMap p.cssVars canonPlain
    (fragmentCandidates p) scoreStart
  match res.2.2 with
  | some bestRuns =>
    if canonPlain = [] ∨ 100 * res.2.1.num ≥ 28 * (res.2.1.den : Int) then
      some
        { text := joinRuns bestRuns, runs := bestRuns,
          signature := CapSignature.runsSig "html".toList bestRuns,
          source := "html".toList, detail := none }
    else none
  | none => none

def htmlCaptureOf (s : ClipboardState) : Option Capture :=
  match s.htmlPayload with
  | none => none
  | some p => htmlCaptureOfPayload p (canonicalCaptureText s.plainText)

/-- `_read_clipboard_rtf_runs` (app.py:2744–2765) from the decoded
legacy rich-text payload: slice from the first `{\rtf`, parse,
normalize. -/
def readClipboardRtfRuns (rtfText : Option Str) : List CapRun :=
  match rtfText with
  | none => []
  | some t =>
    if t = [] then []
    else
      let t :=
        match findSubS t "\x7b\\rtf".toList with
        | some i => if i > 0 then t.drop i else t
        | none => t
      normalizeCapturedRuns (rtfParse t)

/-- The legacy-capture half of `_read_clipboard_capture`
(app.py:2884–2894). -/
def rtfCaptureOf (s : ClipboardState) : Option Capture :=
  let runs := readClipboardRtfRuns s.rtfText
  if runs = [] then none
  else
    let text := joinRuns runs
    if text = [] then none
    else
      some
        { text := text, runs := runs,
          signature := CapSignature.runsSig "rtf".toList runs,
          source := "rtf".toList, detail := none }

def joinCommaSpace : List Str → Str
  | [] => []
  | [x] => x
  | x :: xs => x ++ ',' :: ' ' :: joinCommaSpace xs

/-- The diagnostic `detail` string of the plain-text fallback
(app.py:2909–2917), naming up to six of the raw clipboard format names
seen. -/
def detailString (formats : List Str) : Str :=
  let lowered := formats.map pyLower
  let visible :=
    if formats = [] then "none".toList else joinCommaSpace (formats.take 6)
  if lowered.any (fun n => containsSub n "html".toList) ∨
      lowered.any (fun n => containsSub n "rtf".toList) then
    "fant html/rtf format men klarte ikke lese bold. formater: ".toList ++ visible
  else
    "ingen html/rtf format i clipboard. formater: ".toList ++ visible

/-- The plain-text fallback capture (app.py:2919–2925). -/
def plainCaptureMk (text : Str) (formats : List Str) : Capture :=
  { text := text, runs := [(text, false)],
    signature := CapSignature.textSig text, source := "text".toList,
    detail := some (detailString formats) }

def hasBoldRun (runs : List CapRun) : Bool := runs.any (fun r => r.2)

/-- The final selection cascade of `_read_clipboard_capture`
(app.py:2896–2925). -/
def selectCapture (hc rc : Option Capture) (plainText : Str)
    (formats : List Str) : Option Capture :=
  match hc with
  | some h =>
    if hasBoldRun h.runs then some h
    else
      match rc with
      | some r => if hasBoldRun r.runs then some r else some h
      | none => some h
  | none =>
    match rc with
    | some r => some r
    | none => if plainText = [] then none else some (plainCaptureMk plainText formats)

/-- `_read_clipboard_capture` (app.py:2816–2925). -/
def readClipboardCapture (s : ClipboardState) : Option Capture :=
  selectCapture (htmlCaptureOf s) (rtfCaptureOf s) s.plainText s.formatNames

/-! ## Claim C1 — final selection priority of the reconciler -/

/-- Claim C1: for every clipboard state the reconciler returns, in
priority order: (a) the accepted markup capture when it has a bold run;
(b) else the legacy rich-text capture when it has a bold run; (c) else
the accepted markup capture; (d) else the legacy capture; (e) else, when
plain text exists, a single non-bold run over it carrying the diagnostic
detail string naming the observed format names; and `none` when nothing
is available. -/
theorem readClipboardCapture_priority (s : ClipboardState) :
    (∀ h, htmlCaptureOf s = some h → hasBoldRun h.runs = true →
      readClipboardCapture s = some h) ∧
    (∀ r, (htmlCaptureOf s = none ∨
        ∃ h, htmlCaptureOf s = some h ∧ hasBoldRun h.runs = false) →
      rtfCaptureOf s = some r → hasBoldRun r.runs = true →
      readClipboardCapture s = some r) ∧
    (∀ h, htmlCaptureOf s = some h → hasBoldRun h.runs = false →
      (rtfCaptureOf s = none ∨
        ∃ r, rtfCaptureOf s = some r ∧ hasBoldRun r.runs = false) →
      readClipboardCapture s = some h) ∧
    (∀ r, htmlCaptureOf s = none → rtfCaptureOf s = some r →
      readClipboardCapture s = some r) ∧
    (htmlCaptureOf s = none → rtfCaptureOf s = none → s.plainText ≠ [] →
      readClipboardCapture s = some (plainCaptureMk s.plainText s.formatNames) ∧
        (plainCaptureMk s.plainText s.formatNames).runs = [(s.plainText, false)] ∧
        (plainCaptureMk s.plainText s.formatNames).detail =
          some (detailString s.formatNames)) ∧
    (htmlCaptureOf s = none → rtfCaptureOf s = none → s.plainText = [] →
      readClipboardCapture s = none) := by
  refine ⟨?_, ?_, ?_, ?_, ?_, ?_⟩
  · intro h hh hb
    unfold readClipboardCapture selectCapture
    rw [hh]
    simp [hb]
  · intro r hh hr hb
    unfold readClipboardCapture selectCapture
    rcases hh with hh | ⟨h, hh, hnb⟩
    · rw [hh, hr]
    · rw [hh, hr]
      simp [hnb, hb]
  · intro h hh hnb hr
    unfold readClipboardCapture selectCapture
    rw [hh]
    rcases hr with hr | ⟨r, hr, hrnb⟩
    · rw [hr]
      simp [hnb]
    · rw [hr]
      simp [hnb, hrnb]
  · intro r hh hr
    unfold readClipboardCapture selectCapture
    rw [hh, hr]
  · intro hh hr hp
    unfold readClipboardCapture selectCapture
    rw [hh, hr]
    exact ⟨by simp [hp], rfl, rfl⟩
  · intro hh hr hp
    unfold readClipboardCapture selectCapture
    rw [hh, hr]
    simp [hp]

/-- A concrete clipboard state: plain text `"Hello world"` beside an
HTML payload whose fragment is `"<b>Hello</b> world"`. -/
def c1WitnessState : ClipboardState :=
  { plainText := "Hello world".toList,
    htmlPayload := some
      { fragment := "<b>Hello</b> world".toList,
        htmlText := "<b>Hello</b> world".toList,
        classBoldMap := [], cssVars := [] },
    rtfText := none, formatNames := ["HTML Format".toList] }

/-- The markup capture the reconciler accepts for `c1WitnessState`. -/
def c1WitnessCapture : Capture :=
  { text := "Hello world".toList,
    runs := [("Hello".toList, true), (" world".toList, false)],
    signature := CapSignature.runsSig "html".toList
      [("Hello".toList, true), (" world".toList, false)],
    source := "html".toList, detail := none }

/-- Claim C1, witness: on `c1WitnessState` the bold markup capture wins
(the spec's `"<b>Hello</b> world"` over `"Hello world"` example). -/
theorem readClipboardCapture_priority_witness :
    readClipboardCapture c1WitnessState = some c1WitnessCapture :=
  (readClipboardCapture_priority c1WitnessState).1 c1WitnessCapture
    (by decide) (by decide)

/-! ## Claim C2 — the markup candidate scoring loop -/

/-- Every evaluated candidate has a `has_bold` component of 0 or 1. -/
theorem candidateEval_hasBold (cbm : List (Str × Bool))
    (cssVars : List (Str × Str)) (canonPlain c : Str) (ev : CandEval)
    (h : candidateEval cbm cssVars canonPlain c = some ev) :
    ev.score.hasBold = 0 ∨ ev.score.hasBold = 1 := by
  simp only [candidateEval] at h
  split_ifs at h <;> (rw [Option.some.injEq] at h; subst h; simp)

/-- Every evaluated candidate strictly beats the initial score
`(-1, -1.0, -10**9, -1)`. -/
theorem candidateEval_beats_init (cbm : List (Str × Bool))
    (cssVars : List (Str × Str)) (canonPlain c : Str) (ev : CandEval)
    (h : candidateEval cbm cssVars canonPlain c = some ev) :
    ScoreLt scoreInit ev.score := by
  rcases candidateEval_hasBold cbm cssVars canonPlain c ev h with h0 | h0 <;>
    exact Or.inl (by rw [h0]; norm_num [scoreInit])

/-- Invariant of the scoring loop's accumulator relative to the
candidates already processed (proof device): an empty best is the
untouched initial accumulator with only invalid candidates seen; a
non-empty best comes from a seen candidate and carries its score and
similarity; and no seen candidate scores strictly above the best. -/
def LoopInv (cbm : List (Str × Bool)) (cssVars : List (Str × Str))
    (canonPlain : Str) (seen : List Str)
    (acc : Score × Sim × Option (List CapRun)) : Prop :=
  (acc.2.2 = none → acc.1 = scoreInit ∧
    ∀ c ∈ seen, candidateEval cbm cssVars canonPlain c = none) ∧
  (∀ runs, acc.2.2 = some runs → ∃ c ∈ seen, ∃ ev,
    candidateEval cbm cssVars canonPlain c = some ev ∧
    acc.1 = ev.score ∧ acc.2.1 = ev.sim ∧ runs = ev.runs) ∧
  (∀ c ∈ seen, ∀ ev, candidateEval cbm cssVars canonPlain c = some ev →
    ¬ ScoreLt acc.1 ev.score)

/-- The scoring loop preserves `LoopInv`. -/
theorem scoreLoop_inv (cbm : List (Str × Bool)) (cssVars : List (Str × Str))
    (canonPlain : Str) (cands : List Str) :
    ∀ (seen : List Str) (acc : Score × Sim × Option (List CapRun)),
      LoopInv cbm cssVars canonPlain seen acc →
      LoopInv cbm cssVars canonPlain (seen ++ cands)
        (scoreLoop cbm cssVars canonPlain cands acc) := by
  induction cands with
  | nil => intro seen acc h; simpa using h
  | cons c cands ih =>
    intro seen acc hinv
    have hseen : seen ++ c :: cands = (seen ++ [c]) ++ cands := by simp
    rw [hseen]
    cases hev : candidateEval cbm cssVars canonPlain c with
    | none =>
      simp only [scoreLoop, hev]
      apply ih
      obtain ⟨h1, h2, h3⟩ := hinv
      refine ⟨?_, ?_, ?_⟩
      · intro hn
        obtain ⟨ha, hb⟩ := h1 hn
        refine ⟨ha, ?_⟩
        intro c' hc'
        rcases List.mem_append.mp hc' with hc' | hc'
        · exact hb c' hc'
        · simp at hc'; subst hc'; exact hev
      · intro runs hr
        obtain ⟨c', hc', ev', he', hs, hsim, hruns⟩ := h2 runs hr
        exact ⟨c', List.mem_append_left _ hc', ev', he', hs, hsim, hruns⟩
      · intro c' hc' ev' he'
        rcases List.mem_append.mp hc' with hc' | hc'
        · exact h3 c' hc' ev' he'
        · simp at hc'; subst hc'
          rw [hev] at he'
          exact absurd he' (by simp)
    | some ev =>
      by_cases hlt : ScoreLt acc.1 ev.score
      · simp only [scoreLoop, hev, if_pos hlt]
        apply ih
        obtain ⟨h1, h2, h3⟩ := hinv
        refine ⟨?_, ?_, ?_⟩
        · intro hn; simp at hn
        · intro runs hr
          simp at hr
          subst hr
          exact ⟨c, List.mem_append_right _ (by simp), ev, hev, rfl, rfl, rfl⟩
        · intro c' hc' ev' he'
          rcases List.mem_append.mp hc' with hc' | hc'
          · intro hcontra
            exact h3 c' hc' ev' he' (scoreLt_trans hlt hcontra)
          · simp at hc'; subst hc'
            rw [hev] at he'
            simp only [Option.some.injEq] at he'
            subst he'
            exact scoreLt_irrefl ev.score
      · simp only [scoreLoop, hev, if_neg hlt]
        apply ih
        obtain ⟨h1, h2, h3⟩ := hinv
        refine ⟨?_, ?_, ?_⟩
        · intro hn
          obtain ⟨ha, hb⟩ := h1 hn
          exact absurd (ha ▸ candidateEval_beats_init cbm cssVars canonPlain c ev hev) hlt
        · intro runs hr
          obtain ⟨c', hc', ev', he', hs, hsim, hruns⟩ := h2 runs hr
          exact ⟨c', List.mem_append_left _ hc', ev', he', hs, hsim, hruns⟩
        · intro c' hc' ev' he'
          rcases List.mem_append.mp hc' with hc' | hc'
          · exact h3 c' hc' ev' he'
          · simp at hc'; subst hc'
            rw [hev] at he'
            simp only [Option.some.injEq] at he'
            subst he'
            exact hlt

/-- The loop invariant holds at the untouched initial accumulator. -/
theorem loopInv_start (cbm : List (Str × Bool)) (cssVars : List (Str × Str))
    (canonPlain : Str) : LoopInv cbm cssVars canonPlain [] scoreStart := by
  refine ⟨fun _ => ⟨rfl, by simp⟩, ?_, by simp⟩
  intro runs hr
  exact absurd hr (by simp [scoreStart])

/-- Claim C2: whenever the markup half of the reconciler produces a
capture, that capture carries the run sequence (and joined text) of a
fragment candidate that maximizes the lexicographic score tuple
`(has_bold, similarity, -abs(length_delta), length)` over all validly
evaluated candidates, and the acceptance condition holds: the
canonicalized plain text is empty or the winner's similarity is at least
0.28; and whenever no capture is produced, either every candidate fails
evaluation, or plain text exists and the maximizing candidate's
similarity is below 0.28. -/
theorem htmlCapture_argmax (p : HtmlPayload) (canonPlain : Str) :
    (∀ cap, htmlCaptureOfPayload p canonPlain = some cap →
      ∃ c ∈ fragmentCandidates p, ∃ ev,
        candidateEval p.classBoldMap p.cssVars canonPlain c = some ev ∧
        cap.runs = ev.runs ∧ cap.text = joinRuns ev.runs ∧
        (∀ c' ∈ fragmentCandidates p, ∀ ev',
          candidateEval p.classBoldMap p.cssVars canonPlain c' = some ev' →
          ¬ ScoreLt ev.score ev'.score) ∧
        (canonPlain = [] ∨ 100 * ev.sim.num ≥ 28 * (ev.sim.den : Int))) ∧
    (htmlCaptureOfPayload p canonPlain = none →
      (∀ c ∈ fragmentCandidates p,
        candidateEval p.classBoldMap p.cssVars canonPlain c = none) ∨
      (canonPlain ≠ [] ∧ ∃ c ∈ fragmentCandidates p, ∃ ev,
        candidateEval p.classBoldMap p.cssVars canonPlain c = some ev ∧
        100 * ev.sim.num < 28 * (ev.sim.den : Int) ∧
        ∀ c' ∈ fragmentCandidates p, ∀ ev',
          candidateEval p.classBoldMap p.cssVars canonPlain c' = some ev' →
          ¬ ScoreLt ev.score ev'.score)) := by
  have hinv := scoreLoop_inv p.classBoldMap p.cssVars canonPlain
    (fragmentCandidates p) [] scoreStart (loopInv_start _ _ _)
  simp only [List.nil_append] at hinv
  obtain ⟨h1, h2, h3⟩ := hinv
  constructor
  · intro cap hcap
    simp only [htmlCaptureOfPayload] at hcap
    cases hres : (scoreLoop p.classBoldMap p.cssVars canonPlain
        (fragmentCandidates p) scoreStart).2.2 with
    | none => rw [hres] at hcap; exact absurd hcap (by simp)
    | some bestRuns =>
      simp only [hres] at hcap
      obtain ⟨c, hc, ev, hev, hs, hsim, hruns⟩ := h2 bestRuns hres
      by_cases hth : canonPlain = [] ∨
          100 * (scoreLoop p.classBoldMap p.cssVars canonPlain
            (fragmentCandidates p) scoreStart).2.1.num ≥
          28 * ((scoreLoop p.classBoldMap p.cssVars canonPlain
            (fragmentCandidates p) scoreStart).2.1.den : Int)
      · rw [if_pos hth] at hcap
        rw [Option.some.injEq] at hcap
        subst hcap
        refine ⟨c, hc, ev, hev, ?_, ?_, ?_, ?_⟩
        · simpa using hruns
        · simp [hruns]
        · intro c' hc' ev' hev'
          have hmax := h3 c' hc' ev' hev'
          rw [hs] at hmax
          exact hmax
        · rcases hth with hth | hth
          · exact Or.inl hth
          · rw [hsim] at hth
            exact Or.inr hth
      · rw [if_neg hth] at hcap
        exact absurd hcap (by simp)
  · intro hnone
    simp only [htmlCaptureOfPayload] at hnone
    cases hres : (scoreLoop p.classBoldMap p.cssVars canonPlain
        (fragmentCandidates p) scoreStart).2.2 with
    | none =>
      left
      intro c hc
      exact (h1 hres).2 c hc
    | some bestRuns =>
      right
      simp only [hres] at hnone
      by_cases hth : canonPlain = [] ∨
          100 * (scoreLoop p.classBoldMap p.cssVars canonPlain
            (fragmentCandidates p) scoreStart).2.1.num ≥
          28 * ((scoreLoop p.classBoldMap p.cssVars canonPlain
            (fragmentCandidates p) scoreStart).2.1.den : Int)
      · rw [if_pos hth] at hnone
        exact absurd hnone (by simp)
      · push_neg at hth
        obtain ⟨c, hc, ev, hev, hs, hsim, hruns⟩ := h2 bestRuns hres
        refine ⟨hth.1, c, hc, ev, hev, ?_, ?_⟩
        · have hlt := hth.2
          rw [hsim] at hlt
          exact hlt
        · intro c' hc' ev' hev'
          have hmax := h3 c' hc' ev' hev'
          rw [hs] at hmax
          exact hmax

/-- A concrete markup payload whose only fragment candidate is
`"<b>Hei</b> verden"`, read beside the plain text `"Hei verden"`. -/
def c2Payload : HtmlPayload :=
  { fragment := "<b>Hei</b> verden".toList,
    htmlText := "<b>Hei</b> verden".toList,
    classBoldMap := [], cssVars := [] }

/-- The canonicalized plain text accompanying `c2Payload`. -/
def c2Plain : Str := canonicalCaptureText "Hei verden".toList

/-- The capture the markup half produces for `c2Payload`. -/
def c2Capture : Capture :=
  { text := "Hei verden".toList,
    runs := [("Hei".toList, true), (" verden".toList, false)],
    signature := CapSignature.runsSig "html".toList
      [("Hei".toList, true), (" verden".toList, false)],
    source := "html".toList, detail := none }

/-- Claim C2, witness: on `c2Payload` the produced capture carries a
maximizing candidate's runs and passes the 0.28 similarity gate. -/
theorem htmlCapture_argmax_witness :
    ∃ c ∈ fragmentCandidates c2Payload, ∃ ev,
      candidateEval c2Payload.classBoldMap c2Payload.cssVars c2Plain c =
        some ev ∧
      c2Capture.runs = ev.runs ∧ c2Capture.text = joinRuns ev.runs ∧
      (∀ c' ∈ fragmentCandidates c2Payload, ∀ ev',
        candidateEval c2Payload.classBoldMap c2Payload.cssVars c2Plain c' =
          some ev' →
        ¬ ScoreLt ev.score ev'.score) ∧
      (c2Plain = [] ∨ 100 * ev.sim.num ≥ 28 * (ev.sim.den : Int)) :=
  (htmlCapture_argmax c2Payload c2Plain).1 c2Capture (by decide)
